import Mathlib

/-
Verification development for the `react-intl-extract-webpack-plugin` browser
runtime (`src/packages/react-intl-extract-webpack-plugin/browser/index.tsx`).

Modelling conventions (shallow embedding):

* JavaScript objects keyed by strings are modelled as association lists
  `List (String × α)`; `obj[k]` is `alookup`, which returns the value of the
  first entry with key `k`.  `Object.assign(target, source)` is `jsAssign`:
  keys already in the target are overwritten in place, keys only in the
  source are appended in source order.
* A JS `Set` is a duplicate-free list in insertion order; `Set.add` is
  `setAdd` (append if absent), `new Set(xs)` is `xs.foldl setAdd []`.
* A `ChunkId` is `string | number`; when a chunk id is used as an object
  key JavaScript coerces it to a string, modelled by `ChunkId.key`.
* The network and `JSON.parse` are external: an `Env` gives, per URL, the
  fetch outcome (`netError` for the XHR `error` event, `success body` for
  the `load` event) and, per body, the result of parsing it as a
  locale-messages document (`none` when `JSON.parse` throws).
* Asynchronous methods return a `StepResult`: the loader state after the
  operation, the list of URLs requested (in issue order), and the first
  error, if any.  The event-loop interleaving of a `Promise.all` fan-out is
  linearized in list order: every load of the pass runs (as its handler
  would), and the pass reports the first failure, mirroring that a rejected
  `Promise.all` still lets sibling handlers mutate state.
* Chunk registrations that the host bundler performs while a settle pass is
  in flight are supplied as a schedule `growth : List (List ChunkId)`: the
  chunks appearing in `growth[i]` are added to `chunkIdsToLoad` during the
  i-th fan-out pass (matching `push` with no active locale).  When the
  schedule is exhausted no further chunks register, so the pending set
  cannot grow and the recursion of `loadPending` stops, exactly as the
  `size` comparison in the source decides.
-/

/-- Chunk identifiers are strings or numbers (`type ChunkId = string | number`). -/
inductive ChunkId where
  | str (s : String)
  | num (n : Int)
deriving DecidableEq

/-- JavaScript coercion of a chunk id used as an object key. -/
def ChunkId.key : ChunkId → String
  | .str s => s
  | .num n => toString n

/-- Lookup of the first entry with the given key in an association list,
modelling JavaScript property access `obj[k]`. -/
def alookup {α : Type} : List (String × α) → String → Option α
  | [], _ => none
  | p :: rest, k => if p.1 = k then some p.2 else alookup rest k

/-- JavaScript truthiness of an optional string: `undefined` and the empty
string are falsy. -/
def truthyStr : Option String → Bool
  | none => false
  | some s => !(s == "")

/-- JavaScript `Set.add`: append the element if it is not already present. -/
def setAdd (l : List ChunkId) (c : ChunkId) : List ChunkId :=
  if c ∈ l then l else l ++ [c]

/-- Shallow `Object.assign(target, source)`: entries of the target whose key
also occurs in the source get the source's value in place; entries of the
source whose key is absent from the target are appended in source order. -/
def jsAssign {α : Type} (target source : List (String × α)) : List (String × α) :=
  target.map (fun p =>
    match alookup source p.1 with
    | some v => (p.1, v)
    | none => p)
  ++ source.filter (fun p => (alookup target p.1).isNone)

/-- A locale-messages payload: message id to message template (`LocaleMessages`). -/
abbrev LocaleMessages := List (String × String)

/-- Messages keyed by locale (`Messages`). -/
abbrev Messages := List (String × LocaleMessages)

/-- The build manifest: chunk id (as string key) to locale to resource URL. -/
abbrev Manifest := List (String × List (String × String))

/-- The server-render hydration payload: chunk-group name to `Messages`. -/
abbrev Cached := List (String × Messages)

/-- Outcome of the XHR issued for a resource URL. -/
inductive FetchResult where
  | netError
  | success (body : String)
deriving DecidableEq

/-- The external world: per-URL fetch outcomes and the behaviour of
`JSON.parse` on response bodies (`none` when parsing throws). -/
structure Env where
  net : String → FetchResult
  parse : String → Option LocaleMessages

/-- Errors an asynchronous load can reject with. -/
inductive LoadError where
  | network
  | parsePayload
deriving DecidableEq

/-- State of an `IntlChunkLoader` instance (the class fields). -/
structure IntlChunkLoader where
  chunkIdsToLoad : List ChunkId
  manifest : Manifest
  cache : Messages
  locale : Option String
  loadedChunksPerLocale : List (String × List ChunkId)
deriving DecidableEq

/-- Result of an asynchronous loader operation: the state afterwards, the
URLs requested (in issue order), and the first rejection, if any. -/
structure StepResult where
  state : IntlChunkLoader
  requests : List String
  error : Option LoadError
deriving DecidableEq

namespace IntlChunkLoader

/-- Core of `updateCache` for a single payload locale: create the locale's
bucket if absent, then `Object.assign` the payload's entries into it. -/
def updateCache1 (cache : Messages) (loc : String) (lm : LocaleMessages) : Messages :=
  if (alookup cache loc).isSome then
    cache.map (fun q => if q.1 = loc then (q.1, jsAssign q.2 lm) else q)
  else
    cache ++ [(loc, jsAssign [] lm)]

/-- Pure content of `updateCache(messages)`: fold `updateCache1` over the
payload's locale entries (`Object.keys(messages).forEach`). -/
def mergeIntoCache (cache : Messages) (messages : Messages) : Messages :=
  messages.foldl (fun c p => updateCache1 c p.1 p.2) cache

/-- Method `updateCache(messages)` of the class. -/
def updateCache (st : IntlChunkLoader) (messages : Messages) : IntlChunkLoader :=
  { st with cache := mergeIntoCache st.cache messages }

/-- Method `setChunkIdAsLoaded(chunkId, locale)`: add to the locale's
loaded set, creating the `Map` entry when absent. -/
def setChunkIdAsLoaded (st : IntlChunkLoader) (chunkId : ChunkId) (locale : String) :
    IntlChunkLoader :=
  { st with loadedChunksPerLocale :=
      match alookup st.loadedChunksPerLocale locale with
      | some _ =>
          st.loadedChunksPerLocale.map
            (fun q => if q.1 = locale then (q.1, setAdd q.2 chunkId) else q)
      | none => st.loadedChunksPerLocale ++ [(locale, [chunkId])] }

/-- The constructor `new IntlChunkLoader(manifest, chunkIds, cached)`:
initialize the fields, then for each chunk-group entry of `cached` merge its
messages into the cache and record every (group-name, locale) pair loaded. -/
def create (manifest : Manifest) (chunkIds : List ChunkId) (cached : Cached) :
    IntlChunkLoader :=
  cached.foldl
    (fun st p =>
      let st := st.updateCache p.2
      p.2.foldl (fun st q => st.setChunkIdAsLoaded (ChunkId.str p.1) q.1) st)
    { chunkIdsToLoad := chunkIds.foldl setAdd []
      manifest := manifest
      cache := []
      locale := none
      loadedChunksPerLocale := [] }

/-- The expression `this.manifest[chunkId] && this.manifest[chunkId][locale]`. -/
def srcFor (st : IntlChunkLoader) (chunkId : ChunkId) (locale : String) : Option String :=
  match alookup st.manifest chunkId.key with
  | some m => alookup m locale
  | none => none

/-- Whether the `loadedChunks && loadedChunks.has(chunkId)` guard holds. -/
def isLoadedB (st : IntlChunkLoader) (chunkId : ChunkId) (locale : String) : Bool :=
  match alookup st.loadedChunksPerLocale locale with
  | some s => decide (chunkId ∈ s)
  | none => false

/-- Method `load(chunkId, locale)`: resolve at once when the manifest gives
no (truthy) URL or the chunk is already loaded for the locale; otherwise
fetch the URL, parse the body, merge it under `locale` and mark the chunk
loaded, rejecting on network or parse failure. -/
def load (env : Env) (st : IntlChunkLoader) (chunkId : ChunkId) (locale : String) :
    StepResult :=
  let src := srcFor st chunkId locale
  if !(truthyStr src) || isLoadedB st chunkId locale then
    ⟨st, [], none⟩
  else
    let url := src.getD ""
    match env.net url with
    | .netError => ⟨st, [url], some .network⟩
    | .success body =>
      match env.parse body with
      | none => ⟨st, [url], some .parsePayload⟩
      | some msgs =>
          ⟨(st.updateCache [(locale, msgs)]).setChunkIdAsLoaded chunkId locale,
           [url], none⟩

/-- One fan-out pass of `loadPending`: `Promise.all` over a snapshot of the
pending set, linearized in list order.  Every load runs (handlers of
sibling requests still fire after a rejection); the pass reports the first
error. -/
def loadAll (env : Env) (locale : String) :
    IntlChunkLoader → List ChunkId → StepResult
  | st, [] => ⟨st, [], none⟩
  | st, c :: rest =>
    let r := load env st c locale
    let r2 := loadAll env locale r.state rest
    ⟨r2.state, r.requests ++ r2.requests,
     match r.error with
     | some e => some e
     | none => r2.error⟩

/-- Method `loadPending(locale)`: snapshot the pending-set size, fan out a
load for every pending chunk, and when the pending set has grown past the
snapshot (chunks of the growth schedule registered during the pass) recurse
over the current pending set.  An exhausted schedule means no chunk
registers during the pass, so the size comparison fails and the pass's
result stands. -/
def loadPending (env : Env) : List (List ChunkId) → IntlChunkLoader → String → StepResult
  | [], st, locale => loadAll env locale st st.chunkIdsToLoad
  | g :: rest, st, locale =>
    let size := st.chunkIdsToLoad.length
    let r := loadAll env locale st st.chunkIdsToLoad
    let st' := { r.state with chunkIdsToLoad := g.foldl setAdd r.state.chunkIdsToLoad }
    match r.error with
    | some e => ⟨st', r.requests, some e⟩
    | none =>
      if size < st'.chunkIdsToLoad.length then
        let r2 := loadPending env rest st' locale
        ⟨r2.state, r.requests ++ r2.requests, r2.error⟩
      else ⟨st', r.requests, none⟩

/-- Method `setLocale(locale)`: settle the locale, then record it active;
a rejection of `loadPending` skips the assignment and propagates. -/
def setLocale (env : Env) (growth : List (List ChunkId)) (st : IntlChunkLoader)
    (locale : String) : StepResult :=
  let r := loadPending env growth st locale
  match r.error with
  | some e => ⟨r.state, r.requests, some e⟩
  | none => ⟨{ r.state with locale := some locale }, r.requests, none⟩

/-- Method `push(chunkId)`: register the chunk; when a (truthy) locale is
active, immediately load the chunk for it, else resolve at once. -/
def push (env : Env) (st : IntlChunkLoader) (chunkId : ChunkId) : StepResult :=
  let st' := { st with chunkIdsToLoad := setAdd st.chunkIdsToLoad chunkId }
  if truthyStr st'.locale then
    load env st' chunkId (st'.locale.getD "")
  else
    ⟨st', [], none⟩

/-- Method `hot(manifest, messages)`: `Object.assign` the patch into the
manifest and merge the messages into the cache. -/
def hot (st : IntlChunkLoader) (manifest : Manifest) (messages : Messages) :
    IntlChunkLoader :=
  { st with
      manifest := jsAssign st.manifest manifest
      cache := mergeIntoCache st.cache messages }

/-- Getter `messages`: the active locale's cache bucket, or `undefined`
when no (truthy) locale is active. -/
def messages (st : IntlChunkLoader) : Option LocaleMessages :=
  if truthyStr st.locale then alookup st.cache (st.locale.getD "") else none

end IntlChunkLoader

/-- Value of the `__webpack_require__.intlChunkLoader` extension point: not
set yet, the array of chunk ids pushed by the plugin runtime before
initialization, or an already-constructed loader instance. -/
inductive LoaderSlot where
  | absent
  | pushedChunkIds (ids : List ChunkId)
  | loader (st : IntlChunkLoader)

/-- The `__webpack_require__` extension points the module reads and writes. -/
structure WebpackRuntime where
  intlManifest : Option Manifest
  intlChunkLoader : LoaderSlot

/-- The two synchronous initialization failures. -/
inductive InitError where
  | manifestMissing
  | alreadyInitialized
deriving DecidableEq

/-- Module-level `initialize(cached)`: throw when the manifest is absent;
when the slot does not hold a loader instance, construct one from the
manifest and whatever chunk ids the slot holds and store it; when it
already holds a loader, throw. -/
def initializeLoader (rt : WebpackRuntime) (cached : Option Cached) :
    Except InitError (WebpackRuntime × IntlChunkLoader) :=
  match rt.intlManifest with
  | none => .error .manifestMissing
  | some m =>
    match rt.intlChunkLoader with
    | .loader _ => .error .alreadyInitialized
    | .absent =>
        let st := IntlChunkLoader.create m [] (cached.getD [])
        .ok ({ rt with intlChunkLoader := .loader st }, st)
    | .pushedChunkIds ids =>
        let st := IntlChunkLoader.create m ids (cached.getD [])
        .ok ({ rt with intlChunkLoader := .loader st }, st)

/-! Basic lemmas about the association-list and set primitives. -/

theorem alookup_cons {α : Type} (p : String × α) (rest : List (String × α)) (k : String) :
    alookup (p :: rest) k = if p.1 = k then some p.2 else alookup rest k := rfl

theorem alookup_append {α : Type} (l₁ l₂ : List (String × α)) (k : String) :
    alookup (l₁ ++ l₂) k =
      match alookup l₁ k with
      | some v => some v
      | none => alookup l₂ k := by
  induction l₁ with
  | nil => simp [alookup]
  | cons p rest ih =>
      by_cases h : p.1 = k <;> simp [alookup, h, ih]

theorem alookup_map_update {α : Type} (l : List (String × α)) (k ℓ : String) (f : α → α) :
    alookup (l.map (fun q => if q.1 = ℓ then (q.1, f q.2) else q)) k
      = (alookup l k).map (fun v => if k = ℓ then f v else v) := by
  induction l with
  | nil => simp [alookup]
  | cons p rest ih =>
      by_cases h : p.1 = ℓ
      · by_cases hk : p.1 = k
        · have hkl : k = ℓ := hk ▸ h
          simp [alookup, h, hk, hkl]
        · have hkl : ¬ k = ℓ := fun he => hk (h.trans he.symm)
          have hlk : ¬ ℓ = k := fun he => hkl he.symm
          simp [alookup, h, hk, hkl, hlk, ih]
      · by_cases hk : p.1 = k
        · have hkl : ¬ k = ℓ := fun he => h (hk.trans he)
          simp [alookup, h, hk, hkl]
        · simp [alookup, h, hk, ih]

theorem ne_of_alookup_eq_none {α : Type} {l : List (String × α)} {k : String}
    (h : alookup l k = none) : ∀ p ∈ l, p.1 ≠ k := by
  induction l with
  | nil => simp
  | cons p rest ih =>
      intro q hq
      by_cases hpk : p.1 = k
      · simp [alookup, hpk] at h
      · simp only [alookup_cons, hpk, if_false, if_neg hpk] at h
        rcases List.mem_cons.1 hq with hq | hq
        · simpa [hq] using hpk
        · exact ih h q hq

theorem alookup_isSome_of_mem {α : Type} {l : List (String × α)} {p : String × α}
    (h : p ∈ l) : (alookup l p.1).isSome = true := by
  induction l with
  | nil => simp at h
  | cons q rest ih =>
      by_cases hq : q.1 = p.1
      · simp [alookup, hq]
      · rcases List.mem_cons.1 h with h | h
        · exact absurd (by rw [h]) hq
        · simp [alookup, hq, ih h]

theorem mem_of_alookup_eq_some {α : Type} {l : List (String × α)} {k : String} {v : α}
    (h : alookup l k = some v) : (k, v) ∈ l := by
  induction l with
  | nil => simp [alookup] at h
  | cons q rest ih =>
      by_cases hq : q.1 = k
      · simp only [alookup_cons, hq, if_pos] at h
        have hv : q.2 = v := Option.some.inj h
        have : q = (k, v) := Prod.ext hq hv
        exact this ▸ List.mem_cons_self q rest
      · simp only [alookup_cons, hq, if_neg hq] at h
        exact List.mem_cons_of_mem q (ih h)

theorem alookup_of_mem_nodup {α : Type} {l : List (String × α)} {p : String × α}
    (hn : (l.map Prod.fst).Nodup) (h : p ∈ l) : alookup l p.1 = some p.2 := by
  induction l with
  | nil => simp at h
  | cons q rest ih =>
      simp only [List.map_cons, List.nodup_cons] at hn
      rcases List.mem_cons.1 h with h | h
      · subst h; simp [alookup]
      · have hq : q.1 ≠ p.1 := by
          intro he
          exact hn.1 (he ▸ List.mem_map_of_mem Prod.fst h)
        simp [alookup, hq, ih hn.2 h]

theorem map_id_of_mem {α : Type} {l : List α} {f : α → α}
    (h : ∀ a ∈ l, f a = a) : l.map f = l := by
  induction l with
  | nil => rfl
  | cons a rest ih =>
      simp only [List.map_cons]
      rw [h a (by simp), ih (fun b hb => h b (by simp [hb]))]

theorem mem_setAdd_self (l : List ChunkId) (c : ChunkId) : c ∈ setAdd l c := by
  by_cases h : c ∈ l <;> simp [setAdd, h]

theorem mem_setAdd_of_mem {l : List ChunkId} {c : ChunkId} (d : ChunkId)
    (h : c ∈ l) : c ∈ setAdd l d := by
  by_cases hd : d ∈ l <;> simp [setAdd, hd, h]

theorem mem_setAdd_elim {l : List ChunkId} {c d : ChunkId}
    (h : c ∈ setAdd l d) : c ∈ l ∨ c = d := by
  by_cases hd : d ∈ l
  · simp [setAdd, hd] at h; exact .inl h
  · simp [setAdd, hd] at h; exact h

theorem mem_foldl_setAdd {c : ChunkId} (g : List ChunkId) :
    ∀ l : List ChunkId, c ∈ l → c ∈ g.foldl setAdd l := by
  induction g with
  | nil => intro l h; exact h
  | cons d rest ih =>
      intro l h
      exact ih (setAdd l d) (mem_setAdd_of_mem d h)

theorem foldl_setAdd_eq_append (g : List ChunkId) :
    ∀ l : List ChunkId, ∃ ext, g.foldl setAdd l = l ++ ext := by
  induction g with
  | nil => intro l; exact ⟨[], by simp⟩
  | cons d rest ih =>
      intro l
      by_cases hd : d ∈ l
      · rcases ih l with ⟨ext, he⟩
        exact ⟨ext, by simpa [setAdd, hd] using he⟩
      · rcases ih (l ++ [d]) with ⟨ext, he⟩
        refine ⟨[d] ++ ext, ?_⟩
        simp only [List.foldl_cons, setAdd, hd, if_false, if_neg hd] at he ⊢
        rw [he, List.append_assoc]

theorem foldl_setAdd_eq_of_length_le {g l : List ChunkId}
    (h : (g.foldl setAdd l).length ≤ l.length) : g.foldl setAdd l = l := by
  rcases foldl_setAdd_eq_append g l with ⟨ext, he⟩
  rw [he] at h ⊢
  rw [List.length_append] at h
  have : ext = [] := List.eq_nil_of_length_eq_zero (by omega)
  simp [this]

/-! Lemmas about `jsAssign` (`Object.assign`). -/

theorem alookup_jsAssign_map {α : Type} (t s : List (String × α)) (k : String) :
    alookup (t.map (fun p =>
      match alookup s p.1 with
      | some v => (p.1, v)
      | none => p)) k =
      match alookup t k with
      | some w =>
        match alookup s k with
        | some v => some v
        | none => some w
      | none => none := by
  induction t with
  | nil => simp [alookup]
  | cons p rest ih =>
      by_cases hk : p.1 = k
      · subst hk
        cases hs : alookup s p.1 <;> simp [alookup, hs]
      · cases hs : alookup s p.1 <;> simp [alookup, hk, hs, ih]

theorem alookup_jsAssign_filter {α : Type} (t s : List (String × α)) (k : String) :
    alookup (s.filter (fun p => (alookup t p.1).isNone)) k =
      match alookup t k with
      | some _ => none
      | none => alookup s k := by
  induction s with
  | nil => cases alookup t k <;> simp [alookup]
  | cons p rest ih =>
      by_cases hk : p.1 = k
      · subst hk
        cases ht : alookup t p.1 <;> simp [alookup, ht, ih]
      · cases ht : alookup t p.1 <;> cases htk : alookup t k <;>
          simp [alookup, hk, ht, htk] <;> simp [htk] at ih <;> simpa [alookup, hk] using ih

theorem alookup_jsAssign {α : Type} (t s : List (String × α)) (k : String) :
    alookup (jsAssign t s) k =
      match alookup s k with
      | some v => some v
      | none => alookup t k := by
  unfold jsAssign
  rw [alookup_append, alookup_jsAssign_map, alookup_jsAssign_filter]
  cases alookup t k <;> cases alookup s k <;> simp

theorem jsAssign_idem {α : Type} {t s : List (String × α)}
    (hs : (s.map Prod.fst).Nodup) : jsAssign (jsAssign t s) s = jsAssign t s := by
  have hfil : s.filter (fun p => (alookup (jsAssign t s) p.1).isNone) = [] := by
    rw [List.filter_eq_nil_iff]
    intro p hp
    have hmem : (alookup s p.1).isSome = true := alookup_isSome_of_mem hp
    rw [alookup_jsAssign]
    cases hs' : alookup s p.1
    · rw [hs'] at hmem; simp at hmem
    · simp
  have hmap : (jsAssign t s).map (fun p =>
      match alookup s p.1 with
      | some v => (p.1, v)
      | none => p) = jsAssign t s := by
    apply map_id_of_mem
    intro p hp
    unfold jsAssign at hp
    rcases List.mem_append.1 hp with hp | hp
    · rcases List.mem_map.1 hp with ⟨q, hq, hqe⟩
      cases hqs : alookup s q.1
      · rw [hqs] at hqe
        subst hqe
        simp [hqs]
      · rw [hqs] at hqe
        subst hqe
        simp [hqs]
    · have hps : p ∈ s := List.mem_of_mem_filter hp
      rw [alookup_of_mem_nodup hs hps]
  show (jsAssign t s).map _ ++ List.filter _ s = jsAssign t s
  rw [hfil, hmap, List.append_nil]

/-! Lemmas about `updateCache1` and `mergeIntoCache`. -/

namespace IntlChunkLoader

theorem alookup_updateCache1 (c : Messages) (ℓ : String) (lm : LocaleMessages) (k : String) :
    alookup (updateCache1 c ℓ lm) k =
      if k = ℓ then some (jsAssign ((alookup c ℓ).getD []) lm) else alookup c k := by
  unfold updateCache1
  cases hc : alookup c ℓ with
  | some b =>
      simp only [hc, Option.isSome_some, if_true, if_pos]
      rw [alookup_map_update c k ℓ (fun b => jsAssign b lm)]
      by_cases hk : k = ℓ
      · subst hk; simp [hc]
      · simp [hk]
  | none =>
      simp only [hc, Option.isSome_none, Bool.false_eq_true, if_false, if_neg]
      rw [alookup_append]
      by_cases hk : k = ℓ
      · subst hk
        simp [hc, alookup]
      · have : ¬ ℓ = k := fun he => hk he.symm
        cases hck : alookup c k <;> simp [alookup, this, hck, hk]

/-- The bucket a cache state associates to a locale (empty when absent). -/
def bucketOf (cache : Messages) (loc : String) : LocaleMessages :=
  (alookup cache loc).getD []

theorem bucketOf_updateCache1 (c : Messages) (ℓ : String) (lm : LocaleMessages) (k : String) :
    bucketOf (updateCache1 c ℓ lm) k =
      if k = ℓ then jsAssign (bucketOf c ℓ) lm else bucketOf c k := by
  unfold bucketOf
  rw [alookup_updateCache1]
  by_cases hk : k = ℓ <;> simp [hk]

/-- A cache already absorbing a payload bucket: the locale has an entry and
no entry of the locale's key would change under another assign of `lm`. -/
def bucketAbsorbs (C : Messages) (ℓ : String) (lm : LocaleMessages) : Prop :=
  (alookup C ℓ).isSome = true ∧ ∀ q ∈ C, q.1 = ℓ → jsAssign q.2 lm = q.2

theorem updateCache1_of_absorbs {C : Messages} {ℓ : String} {lm : LocaleMessages}
    (h : bucketAbsorbs C ℓ lm) : updateCache1 C ℓ lm = C := by
  unfold updateCache1
  rw [if_pos h.1]
  apply map_id_of_mem
  intro q hq
  by_cases hql : q.1 = ℓ
  · rw [if_pos hql, h.2 q hq hql]
  · rw [if_neg hql]

theorem absorbs_updateCache1_self {c : Messages} {ℓ : String} {lm : LocaleMessages}
    (hlm : (lm.map Prod.fst).Nodup) : bucketAbsorbs (updateCache1 c ℓ lm) ℓ lm := by
  constructor
  · rw [alookup_updateCache1]; simp
  · intro q hq hql
    unfold updateCache1 at hq
    by_cases hc : (alookup c ℓ).isSome
    · rw [if_pos hc] at hq
      rcases List.mem_map.1 hq with ⟨q₀, hq₀, hqe⟩
      by_cases h₀ : q₀.1 = ℓ
      · rw [if_pos h₀] at hqe
        subst hqe
        simp [jsAssign_idem hlm]
      · rw [if_neg h₀] at hqe
        subst hqe
        exact absurd hql h₀
    · rw [if_neg hc] at hq
      rcases List.mem_append.1 hq with hq | hq
      · have hnone : alookup c ℓ = none := by
          cases h' : alookup c ℓ
          · rfl
          · rw [h'] at hc; simp at hc
        exact absurd hql (ne_of_alookup_eq_none hnone q hq)
      · have : q = (ℓ, jsAssign [] lm) := by simpa using hq
        subst this
        simp [jsAssign_idem hlm]

theorem absorbs_updateCache1_other {C : Messages} {ℓ ℓ' : String}
    {lm lm' : LocaleMessages} (hne : ℓ' ≠ ℓ) (h : bucketAbsorbs C ℓ lm) :
    bucketAbsorbs (updateCache1 C ℓ' lm') ℓ lm := by
  constructor
  · rw [alookup_updateCache1, if_neg (fun he => hne he.symm)]
    exact h.1
  · intro q hq hql
    unfold updateCache1 at hq
    by_cases hc : (alookup C ℓ').isSome
    · rw [if_pos hc] at hq
      rcases List.mem_map.1 hq with ⟨q₀, hq₀, hqe⟩
      by_cases h₀ : q₀.1 = ℓ'
      · rw [if_pos h₀] at hqe
        subst hqe
        exact absurd (h₀.symm.trans hql) hne
      · rw [if_neg h₀] at hqe
        subst hqe
        exact h.2 q₀ hq₀ hql
    · rw [if_neg hc] at hq
      rcases List.mem_append.1 hq with hq | hq
      · exact h.2 q hq hql
      · have : q = (ℓ', jsAssign [] lm') := by simpa using hq
        subst this
        exact absurd hql hne

theorem mergeIntoCache_nil (c : Messages) : mergeIntoCache c [] = c := rfl

theorem mergeIntoCache_cons (c : Messages) (p : String × LocaleMessages)
    (rest : Messages) :
    mergeIntoCache c (p :: rest) = mergeIntoCache (updateCache1 c p.1 p.2) rest := rfl

theorem absorbs_mergeIntoCache_tail {ℓ : String} {lm : LocaleMessages} :
    ∀ (rest : Messages) (C : Messages), (∀ p ∈ rest, p.1 ≠ ℓ) →
      bucketAbsorbs C ℓ lm → bucketAbsorbs (mergeIntoCache C rest) ℓ lm := by
  intro rest
  induction rest with
  | nil => intro C _ h; exact h
  | cons p rest ih =>
      intro C hne h
      rw [mergeIntoCache_cons]
      exact ih _ (fun q hq => hne q (List.mem_cons_of_mem p hq))
        (absorbs_updateCache1_other (hne p (List.mem_cons_self p rest)) h)

theorem merge_absorbs_all :
    ∀ (msgs : Messages) (c : Messages), (msgs.map Prod.fst).Nodup →
      (∀ p ∈ msgs, (p.2.map Prod.fst).Nodup) →
      ∀ p ∈ msgs, bucketAbsorbs (mergeIntoCache c msgs) p.1 p.2 := by
  intro msgs
  induction msgs with
  | nil => intro c _ _ p hp; simp at hp
  | cons q rest ih =>
      intro c hnd hin p hp
      simp only [List.map_cons, List.nodup_cons] at hnd
      rw [mergeIntoCache_cons]
      rcases List.mem_cons.1 hp with hp | hp
      · subst hp
        refine absorbs_mergeIntoCache_tail rest _ ?_ ?_
        · intro q' hq' he
          exact hnd.1 (he ▸ List.mem_map_of_mem Prod.fst hq')
        · exact absorbs_updateCache1_self (hin p (List.mem_cons_self p rest))
      · exact ih _ hnd.2 (fun p' hp' => hin p' (List.mem_cons_of_mem q hp')) p hp

theorem mergeIntoCache_of_absorbs :
    ∀ (msgs : Messages) (C : Messages), (∀ p ∈ msgs, bucketAbsorbs C p.1 p.2) →
      mergeIntoCache C msgs = C := by
  intro msgs
  induction msgs with
  | nil => intro C _; rfl
  | cons p rest ih =>
      intro C h
      rw [mergeIntoCache_cons, updateCache1_of_absorbs (h p (List.mem_cons_self p rest))]
      exact ih C (fun q hq => h q (List.mem_cons_of_mem p hq))

end IntlChunkLoader

/-- C6: `mergeIntoCache` is idempotent: for every cache state and every
payload whose locale keys, and message ids within each locale, are free of
duplicates (as keys of a JavaScript object are), merging the same payload a
second time yields exactly the same cache state — adding no locale or
message-id keys. -/
theorem mergeIntoCache_idem (cache msgs : Messages)
    (h1 : (msgs.map Prod.fst).Nodup)
    (h2 : ∀ p ∈ msgs, (p.2.map Prod.fst).Nodup) :
    IntlChunkLoader.mergeIntoCache (IntlChunkLoader.mergeIntoCache cache msgs) msgs
      = IntlChunkLoader.mergeIntoCache cache msgs :=
  IntlChunkLoader.mergeIntoCache_of_absorbs msgs _
    (IntlChunkLoader.merge_absorbs_all msgs cache h1 h2)

/-- Witness for C6 at a concrete cache and payload. -/
theorem mergeIntoCache_idem_witness :
    IntlChunkLoader.mergeIntoCache
        (IntlChunkLoader.mergeIntoCache [("en", [("a", "x")])]
          [("en", [("a", "y"), ("b", "z")]), ("fr", [("c", "w")])])
        [("en", [("a", "y"), ("b", "z")]), ("fr", [("c", "w")])]
      = IntlChunkLoader.mergeIntoCache [("en", [("a", "x")])]
          [("en", [("a", "y"), ("b", "z")]), ("fr", [("c", "w")])] :=
  mergeIntoCache_idem [("en", [("a", "x")])]
    [("en", [("a", "y"), ("b", "z")]), ("fr", [("c", "w")])]
    (by decide) (by decide)

/-! Field-preservation and loaded-set lemmas for the loader operations. -/

namespace IntlChunkLoader

/-- The guard of `load`: the chunk needs no fetch for the locale, because
the manifest offers no (truthy) resource or the chunk is recorded loaded. -/
def settledB (st : IntlChunkLoader) (chunkId : ChunkId) (locale : String) : Bool :=
  !(truthyStr (srcFor st chunkId locale)) || isLoadedB st chunkId locale

theorem isLoadedB_mark_self (st : IntlChunkLoader) (c : ChunkId) (loc : String) :
    isLoadedB (st.setChunkIdAsLoaded c loc) c loc = true := by
  unfold isLoadedB setChunkIdAsLoaded
  cases h : alookup st.loadedChunksPerLocale loc with
  | some s =>
      simp only [h]
      rw [alookup_map_update st.loadedChunksPerLocale loc loc (fun s => setAdd s c)]
      simp [h, mem_setAdd_self]
  | none =>
      simp only [h]
      rw [alookup_append]
      simp [h, alookup]

theorem isLoadedB_mark_mono {st : IntlChunkLoader} {c : ChunkId} {loc : String}
    (d : ChunkId) (loc' : String) (h : isLoadedB st c loc = true) :
    isLoadedB (st.setChunkIdAsLoaded d loc') c loc = true := by
  unfold isLoadedB at h ⊢
  unfold setChunkIdAsLoaded
  cases hs : alookup st.loadedChunksPerLocale loc with
  | none => rw [hs] at h; simp at h
  | some s =>
      rw [hs] at h
      cases h' : alookup st.loadedChunksPerLocale loc' with
      | some _ =>
          simp only [h']
          rw [alookup_map_update st.loadedChunksPerLocale loc loc' (fun s => setAdd s d)]
          rw [hs]
          by_cases hll : loc = loc'
          · simp only [Option.map_some, hll, if_true, if_pos]
            simpa using mem_setAdd_of_mem d (by simpa using h)
          · simpa [hll] using h
      | none =>
          simp only [h']
          rw [alookup_append, hs]
          exact h

theorem isLoadedB_eq (st : IntlChunkLoader) (c : ChunkId) (loc : String) :
    isLoadedB st c loc = decide (c ∈ (alookup st.loadedChunksPerLocale loc).getD []) := by
  unfold isLoadedB
  cases alookup st.loadedChunksPerLocale loc <;> simp

theorem alookup_mark (st : IntlChunkLoader) (d : ChunkId) (loc' k : String) :
    alookup (st.setChunkIdAsLoaded d loc').loadedChunksPerLocale k
      = if k = loc' then
          some (setAdd ((alookup st.loadedChunksPerLocale loc').getD []) d)
        else alookup st.loadedChunksPerLocale k := by
  unfold setChunkIdAsLoaded
  cases h' : alookup st.loadedChunksPerLocale loc' with
  | some s =>
      simp only [h']
      rw [alookup_map_update st.loadedChunksPerLocale k loc' (fun s => setAdd s d)]
      by_cases hk : k = loc'
      · subst hk
        simp [h']
      · simp [hk]
  | none =>
      simp only [h']
      rw [alookup_append]
      by_cases hk : k = loc'
      · subst hk
        simp [h', alookup, setAdd]
      · have : ¬ loc' = k := fun he => hk he.symm
        cases hck : alookup st.loadedChunksPerLocale k <;> simp [alookup, this, hck, hk]

theorem isLoadedB_mark_false {st : IntlChunkLoader} {c d : ChunkId} {loc loc' : String}
    (hne : d ≠ c) (h : isLoadedB st c loc = false) :
    isLoadedB (st.setChunkIdAsLoaded d loc') c loc = false := by
  rw [isLoadedB_eq] at h
  rw [isLoadedB_eq, alookup_mark]
  by_cases hll : loc = loc'
  · subst hll
    simp only [if_pos rfl, Option.getD_some, decide_eq_false_iff_not] at h ⊢
    intro hmem
    rcases mem_setAdd_elim hmem with hm | hm
    · exact h hm
    · exact hne hm.symm
  · rw [if_neg hll]
    exact h

/-- Equation for `load` when the guard holds: resolve with no request. -/
theorem load_of_settled {env : Env} {st : IntlChunkLoader} {c : ChunkId} {loc : String}
    (hg : settledB st c loc = true) : load env st c loc = ⟨st, [], none⟩ := by
  unfold settledB at hg
  unfold load
  simp [hg]

/-- Equation for `load` when the guard fails: the URL is fetched and the
outcome decided by the environment. -/
theorem load_fetch_eq {env : Env} {st : IntlChunkLoader} {c : ChunkId} {loc : String}
    (hg : settledB st c loc = false) :
    load env st c loc =
      match env.net ((srcFor st c loc).getD "") with
      | .netError => ⟨st, [(srcFor st c loc).getD ""], some .network⟩
      | .success body =>
        match env.parse body with
        | none => ⟨st, [(srcFor st c loc).getD ""], some .parsePayload⟩
        | some msgs =>
            ⟨(st.updateCache [(loc, msgs)]).setChunkIdAsLoaded c loc,
             [(srcFor st c loc).getD ""], none⟩ := by
  unfold settledB at hg
  unfold load
  simp [hg]

theorem load_netError {env : Env} {st : IntlChunkLoader} {c : ChunkId} {loc : String}
    (hg : settledB st c loc = false)
    (hn : env.net ((srcFor st c loc).getD "") = .netError) :
    load env st c loc = ⟨st, [(srcFor st c loc).getD ""], some .network⟩ := by
  rw [load_fetch_eq hg, hn]

theorem load_parseFail {env : Env} {st : IntlChunkLoader} {c : ChunkId} {loc : String}
    {body : String} (hg : settledB st c loc = false)
    (hn : env.net ((srcFor st c loc).getD "") = .success body)
    (hp : env.parse body = none) :
    load env st c loc = ⟨st, [(srcFor st c loc).getD ""], some .parsePayload⟩ := by
  rw [load_fetch_eq hg, hn]
  simp [hp]

theorem load_success {env : Env} {st : IntlChunkLoader} {c : ChunkId} {loc : String}
    {body : String} {msgs : LocaleMessages} (hg : settledB st c loc = false)
    (hn : env.net ((srcFor st c loc).getD "") = .success body)
    (hp : env.parse body = some msgs) :
    load env st c loc =
      ⟨(st.updateCache [(loc, msgs)]).setChunkIdAsLoaded c loc,
       [(srcFor st c loc).getD ""], none⟩ := by
  rw [load_fetch_eq hg, hn]
  simp [hp]

theorem load_fields (env : Env) (st : IntlChunkLoader) (c : ChunkId) (loc : String) :
    (load env st c loc).state.chunkIdsToLoad = st.chunkIdsToLoad ∧
      (load env st c loc).state.manifest = st.manifest ∧
      (load env st c loc).state.locale = st.locale := by
  cases hg : settledB st c loc with
  | true => rw [load_of_settled hg]; exact ⟨rfl, rfl, rfl⟩
  | false =>
      cases hn : env.net ((srcFor st c loc).getD "") with
      | netError => rw [load_netError hg hn]; exact ⟨rfl, rfl, rfl⟩
      | success body =>
          cases hp : env.parse body with
          | none => rw [load_parseFail hg hn hp]; exact ⟨rfl, rfl, rfl⟩
          | some msgs => rw [load_success hg hn hp]; exact ⟨rfl, rfl, rfl⟩

theorem srcFor_load (env : Env) (st : IntlChunkLoader) (c d : ChunkId)
    (loc loc' : String) :
    srcFor (load env st d loc').state c loc = srcFor st c loc := by
  unfold srcFor
  rw [(load_fields env st d loc').2.1]

theorem settledB_load_ok {env : Env} {st : IntlChunkLoader} {c : ChunkId} {loc : String}
    (h : (load env st c loc).error = none) :
    settledB (load env st c loc).state c loc = true := by
  cases hg : settledB st c loc with
  | true => rw [load_of_settled hg]; exact hg
  | false =>
      cases hn : env.net ((srcFor st c loc).getD "") with
      | netError => rw [load_netError hg hn] at h; simp at h
      | success body =>
          cases hp : env.parse body with
          | none => rw [load_parseFail hg hn hp] at h; simp at h
          | some msgs =>
              rw [load_success hg hn hp]
              unfold settledB
              rw [Bool.or_eq_true]
              exact .inr (isLoadedB_mark_self _ c loc)

theorem settledB_load_mono {env : Env} {st : IntlChunkLoader} {c : ChunkId} {loc : String}
    (d : ChunkId) (loc' : String) (h : settledB st c loc = true) :
    settledB (load env st d loc').state c loc = true := by
  cases hg : settledB st d loc' with
  | true => rw [load_of_settled hg]; exact h
  | false =>
      cases hn : env.net ((srcFor st d loc').getD "") with
      | netError => rw [load_netError hg hn]; exact h
      | success body =>
          cases hp : env.parse body with
          | none => rw [load_parseFail hg hn hp]; exact h
          | some msgs =>
              rw [load_success hg hn hp]
              unfold settledB at h ⊢
              have hsrc : srcFor ((st.updateCache [(loc', msgs)]).setChunkIdAsLoaded d loc')
                  c loc = srcFor st c loc := rfl
              rw [hsrc]
              rw [Bool.or_eq_true] at h ⊢
              rcases h with h | h
              · exact .inl h
              · exact .inr (isLoadedB_mark_mono d loc' h)

theorem settledB_load_false {env : Env} {st : IntlChunkLoader} {c d : ChunkId}
    {loc loc' : String} (hne : d ≠ c) (h : settledB st c loc = false) :
    settledB (load env st d loc').state c loc = false := by
  cases hg : settledB st d loc' with
  | true => rw [load_of_settled hg]; exact h
  | false =>
      cases hn : env.net ((srcFor st d loc').getD "") with
      | netError => rw [load_netError hg hn]; exact h
      | success body =>
          cases hp : env.parse body with
          | none => rw [load_parseFail hg hn hp]; exact h
          | some msgs =>
              rw [load_success hg hn hp]
              unfold settledB at h ⊢
              have hsrc : srcFor ((st.updateCache [(loc', msgs)]).setChunkIdAsLoaded d loc')
                  c loc = srcFor st c loc := rfl
              rw [hsrc]
              rw [Bool.or_eq_false_iff] at h ⊢
              exact ⟨h.1, isLoadedB_mark_false hne h.2⟩

theorem loadAll_nil (env : Env) (loc : String) (st : IntlChunkLoader) :
    loadAll env loc st [] = ⟨st, [], none⟩ := rfl

theorem loadAll_cons (env : Env) (loc : String) (st : IntlChunkLoader) (c : ChunkId)
    (rest : List ChunkId) :
    loadAll env loc st (c :: rest) =
      ⟨(loadAll env loc (load env st c loc).state rest).state,
       (load env st c loc).requests ++ (loadAll env loc (load env st c loc).state rest).requests,
       match (load env st c loc).error with
       | some e => some e
       | none => (loadAll env loc (load env st c loc).state rest).error⟩ := rfl

theorem loadAll_fields (env : Env) (loc : String) :
    ∀ (cs : List ChunkId) (st : IntlChunkLoader),
      (loadAll env loc st cs).state.chunkIdsToLoad = st.chunkIdsToLoad ∧
        (loadAll env loc st cs).state.manifest = st.manifest ∧
        (loadAll env loc st cs).state.locale = st.locale := by
  intro cs
  induction cs with
  | nil => intro st; exact ⟨rfl, rfl, rfl⟩
  | cons c rest ih =>
      intro st
      have hst : (loadAll env loc st (c :: rest)).state
          = (loadAll env loc (load env st c loc).state rest).state := rfl
      rw [hst]
      refine ⟨?_, ?_, ?_⟩
      · rw [(ih _).1, (load_fields env st c loc).1]
      · rw [(ih _).2.1, (load_fields env st c loc).2.1]
      · rw [(ih _).2.2, (load_fields env st c loc).2.2]

theorem loadAll_error_none {env : Env} {loc : String} {st : IntlChunkLoader}
    {c : ChunkId} {rest : List ChunkId}
    (h : (loadAll env loc st (c :: rest)).error = none) :
    (load env st c loc).error = none ∧
      (loadAll env loc (load env st c loc).state rest).error = none := by
  have h' : (match (load env st c loc).error with
      | some e => some e
      | none => (loadAll env loc (load env st c loc).state rest).error) = none := h
  cases he : (load env st c loc).error with
  | some e => rw [he] at h'; simp at h'
  | none => rw [he] at h'; exact ⟨rfl, h'⟩

theorem settledB_loadAll_mono (env : Env) (loc' : String) {c : ChunkId} {loc : String} :
    ∀ (cs : List ChunkId) (st : IntlChunkLoader), settledB st c loc = true →
      settledB (loadAll env loc' st cs).state c loc = true := by
  intro cs
  induction cs with
  | nil => intro st h; exact h
  | cons d rest ih =>
      intro st h
      have hst : (loadAll env loc' st (d :: rest)).state
          = (loadAll env loc' (load env st d loc').state rest).state := rfl
      rw [hst]
      exact ih _ (settledB_load_mono d loc' h)

theorem loadAll_settles (env : Env) (loc : String) :
    ∀ (cs : List ChunkId) (st : IntlChunkLoader),
      (loadAll env loc st cs).error = none →
      ∀ c ∈ cs, settledB (loadAll env loc st cs).state c loc = true := by
  intro cs
  induction cs with
  | nil => intro st _ c hc; simp at hc
  | cons d rest ih =>
      intro st herr c hc
      have hst : (loadAll env loc st (d :: rest)).state
          = (loadAll env loc (load env st d loc).state rest).state := rfl
      rcases loadAll_error_none herr with ⟨h1, h2⟩
      rw [hst]
      rcases List.mem_cons.1 hc with hc | hc
      · subst hc
        exact settledB_loadAll_mono env loc rest _ (settledB_load_ok h1)
      · exact ih _ h2 c hc

theorem loadPending_nil (env : Env) (st : IntlChunkLoader) (locale : String) :
    loadPending env [] st locale = loadAll env locale st st.chunkIdsToLoad := rfl

theorem loadPending_cons_err {env : Env} {g : List ChunkId} {rest : List (List ChunkId)}
    {st : IntlChunkLoader} {locale : String} {e : LoadError}
    (he : (loadAll env locale st st.chunkIdsToLoad).error = some e) :
    loadPending env (g :: rest) st locale =
      ⟨{ (loadAll env locale st st.chunkIdsToLoad).state with
          chunkIdsToLoad :=
            g.foldl setAdd (loadAll env locale st st.chunkIdsToLoad).state.chunkIdsToLoad },
       (loadAll env locale st st.chunkIdsToLoad).requests, some e⟩ := by
  simp only [loadPending, he]

theorem loadPending_cons_ok_grow {env : Env} {g : List ChunkId}
    {rest : List (List ChunkId)} {st : IntlChunkLoader} {locale : String}
    (he : (loadAll env locale st st.chunkIdsToLoad).error = none)
    (hg : st.chunkIdsToLoad.length <
      (g.foldl setAdd (loadAll env locale st st.chunkIdsToLoad).state.chunkIdsToLoad).length) :
    loadPending env (g :: rest) st locale =
      ⟨(loadPending env rest
          { (loadAll env locale st st.chunkIdsToLoad).state with
            chunkIdsToLoad :=
              g.foldl setAdd (loadAll env locale st st.chunkIdsToLoad).state.chunkIdsToLoad }
          locale).state,
       (loadAll env locale st st.chunkIdsToLoad).requests ++
        (loadPending env rest
          { (loadAll env locale st st.chunkIdsToLoad).state with
            chunkIdsToLoad :=
              g.foldl setAdd (loadAll env locale st st.chunkIdsToLoad).state.chunkIdsToLoad }
          locale).requests,
       (loadPending env rest
          { (loadAll env locale st st.chunkIdsToLoad).state with
            chunkIdsToLoad :=
              g.foldl setAdd (loadAll env locale st st.chunkIdsToLoad).state.chunkIdsToLoad }
          locale).error⟩ := by
  simp only [loadPending, he, hg, if_pos]

theorem loadPending_cons_ok_stay {env : Env} {g : List ChunkId}
    {rest : List (List ChunkId)} {st : IntlChunkLoader} {locale : String}
    (he : (loadAll env locale st st.chunkIdsToLoad).error = none)
    (hg : ¬ st.chunkIdsToLoad.length <
      (g.foldl setAdd (loadAll env locale st st.chunkIdsToLoad).state.chunkIdsToLoad).length) :
    loadPending env (g :: rest) st locale =
      ⟨{ (loadAll env locale st st.chunkIdsToLoad).state with
          chunkIdsToLoad :=
            g.foldl setAdd (loadAll env locale st st.chunkIdsToLoad).state.chunkIdsToLoad },
       (loadAll env locale st st.chunkIdsToLoad).requests, none⟩ := by
  simp only [loadPending, he, hg, if_neg, if_false]

theorem loadPending_fields (env : Env) (locale : String) :
    ∀ (growth : List (List ChunkId)) (st : IntlChunkLoader),
      (loadPending env growth st locale).state.manifest = st.manifest ∧
        (loadPending env growth st locale).state.locale = st.locale := by
  intro growth
  induction growth with
  | nil =>
      intro st
      rw [loadPending_nil]
      exact ⟨(loadAll_fields env locale _ st).2.1, (loadAll_fields env locale _ st).2.2⟩
  | cons g rest ih =>
      intro st
      cases he : (loadAll env locale st st.chunkIdsToLoad).error with
      | some e =>
          rw [loadPending_cons_err he]
          exact ⟨(loadAll_fields env locale _ st).2.1, (loadAll_fields env locale _ st).2.2⟩
      | none =>
          by_cases hg : st.chunkIdsToLoad.length <
              (g.foldl setAdd (loadAll env locale st st.chunkIdsToLoad).state.chunkIdsToLoad).length
          · rw [loadPending_cons_ok_grow he hg]
            refine ⟨?_, ?_⟩
            · rw [(ih _).1]
              exact (loadAll_fields env locale _ st).2.1
            · rw [(ih _).2]
              exact (loadAll_fields env locale _ st).2.2
          · rw [loadPending_cons_ok_stay he hg]
            exact ⟨(loadAll_fields env locale _ st).2.1, (loadAll_fields env locale _ st).2.2⟩

theorem setLocale_ok {env : Env} {growth : List (List ChunkId)} {st : IntlChunkLoader}
    {locale : String} (h : (loadPending env growth st locale).error = none) :
    setLocale env growth st locale =
      ⟨{ (loadPending env growth st locale).state with locale := some locale },
       (loadPending env growth st locale).requests, none⟩ := by
  simp only [setLocale, h]

theorem setLocale_err {env : Env} {growth : List (List ChunkId)} {st : IntlChunkLoader}
    {locale : String} {e : LoadError}
    (h : (loadPending env growth st locale).error = some e) :
    setLocale env growth st locale =
      ⟨(loadPending env growth st locale).state,
       (loadPending env growth st locale).requests, some e⟩ := by
  simp only [setLocale, h]

theorem push_inactive {env : Env} {st : IntlChunkLoader} {c : ChunkId}
    (h : truthyStr st.locale = false) :
    push env st c = ⟨{ st with chunkIdsToLoad := setAdd st.chunkIdsToLoad c }, [], none⟩ := by
  simp only [push, h, Bool.false_eq_true, if_false]

theorem push_active {env : Env} {st : IntlChunkLoader} {c : ChunkId}
    (h : truthyStr st.locale = true) :
    push env st c =
      load env { st with chunkIdsToLoad := setAdd st.chunkIdsToLoad c } c
        (st.locale.getD "") := by
  simp only [push, h, if_true]

theorem settledB_pending_irrel (x : IntlChunkLoader) (y : List ChunkId) (c : ChunkId)
    (loc : String) : settledB { x with chunkIdsToLoad := y } c loc = settledB x c loc := rfl

theorem loadPending_covers (env : Env) (locale : String) :
    ∀ (growth : List (List ChunkId)) (st : IntlChunkLoader),
      (loadPending env growth st locale).error = none →
      (∀ c ∈ st.chunkIdsToLoad, c ∈ (loadPending env growth st locale).state.chunkIdsToLoad) ∧
      (∀ c ∈ (loadPending env growth st locale).state.chunkIdsToLoad,
        settledB (loadPending env growth st locale).state c locale = true) := by
  intro growth
  induction growth with
  | nil =>
      intro st herr
      rw [loadPending_nil] at herr ⊢
      constructor
      · intro c hc
        rw [(loadAll_fields env locale _ st).1]
        exact hc
      · intro c hc
        rw [(loadAll_fields env locale _ st).1] at hc
        exact loadAll_settles env locale _ st herr c hc
  | cons g rest ih =>
      intro st herr
      cases he : (loadAll env locale st st.chunkIdsToLoad).error with
      | some e =>
          rw [loadPending_cons_err he] at herr
          simp at herr
      | none =>
          by_cases hg : st.chunkIdsToLoad.length <
              (g.foldl setAdd (loadAll env locale st st.chunkIdsToLoad).state.chunkIdsToLoad).length
          · rw [loadPending_cons_ok_grow he hg] at herr ⊢
            have herr2 : (loadPending env rest
                { (loadAll env locale st st.chunkIdsToLoad).state with
                  chunkIdsToLoad :=
                    g.foldl setAdd (loadAll env locale st st.chunkIdsToLoad).state.chunkIdsToLoad }
                locale).error = none := herr
            rcases ih _ herr2 with ⟨ih1, ih2⟩
            constructor
            · intro c hc
              apply ih1
              show c ∈ g.foldl setAdd (loadAll env locale st st.chunkIdsToLoad).state.chunkIdsToLoad
              apply mem_foldl_setAdd
              rw [(loadAll_fields env locale _ st).1]
              exact hc
            · intro c hc
              exact ih2 c hc
          · rw [loadPending_cons_ok_stay he hg] at herr ⊢
            have hpf : (loadAll env locale st st.chunkIdsToLoad).state.chunkIdsToLoad
                = st.chunkIdsToLoad := (loadAll_fields env locale _ st).1
            rw [Nat.not_lt] at hg
            have hstay : g.foldl setAdd (loadAll env locale st st.chunkIdsToLoad).state.chunkIdsToLoad
                = st.chunkIdsToLoad := by
              rw [hpf] at hg ⊢
              exact foldl_setAdd_eq_of_length_le hg
            constructor
            · intro c hc
              show c ∈ g.foldl setAdd (loadAll env locale st st.chunkIdsToLoad).state.chunkIdsToLoad
              rw [hstay]
              exact hc
            · intro c hc
              have hc' : c ∈ st.chunkIdsToLoad := by
                rw [← hstay]
                exact hc
              show settledB { (loadAll env locale st st.chunkIdsToLoad).state with
                  chunkIdsToLoad :=
                    g.foldl setAdd (loadAll env locale st st.chunkIdsToLoad).state.chunkIdsToLoad }
                c locale = true
              rw [settledB_pending_irrel]
              exact loadAll_settles env locale _ st he c hc'

end IntlChunkLoader

/-- C1: when `loadPending` (the settle fan-out of `settleLocale`) resolves,
the pending set has only grown, and every chunk id then in the pending set
— including every chunk registered while a fan-out pass was in flight — is
settled for the locale: either the manifest offers it no resource for the
locale, or it is recorded in the per-locale loaded set.  The recursion
resolves exactly when a pass ends without growth past its snapshot (an
exhausted registration schedule makes the size comparison fail), so any
chunk registered mid-pass is covered by a further pass before resolution. -/
theorem loadPending_converges (env : Env) (growth : List (List ChunkId))
    (st : IntlChunkLoader) (locale : String)
    (h : (IntlChunkLoader.loadPending env growth st locale).error = none) :
    (st.chunkIdsToLoad.all
      (fun c => decide (c ∈ (IntlChunkLoader.loadPending env growth st locale).state.chunkIdsToLoad))
        = true) ∧
    ((IntlChunkLoader.loadPending env growth st locale).state.chunkIdsToLoad.all
      (fun c => IntlChunkLoader.settledB
        (IntlChunkLoader.loadPending env growth st locale).state c locale) = true) := by
  rcases IntlChunkLoader.loadPending_covers env locale growth st h with ⟨h1, h2⟩
  constructor
  · rw [List.all_eq_true]
    intro c hc
    simpa using h1 c hc
  · rw [List.all_eq_true]
    intro c hc
    exact h2 c hc

/-- Sample environment for the convergence witness: every URL responds with
its own name as body, and every body parses to a one-entry payload. -/
def envGrow : Env :=
  { net := fun u => .success u
    parse := fun b => some [(b, b)] }

/-- Initial state for the convergence witness: chunk `a` pending, manifest
offering resources for `a` and for the mid-flight chunk `b`. -/
def stGrow : IntlChunkLoader :=
  IntlChunkLoader.create [("a", [("en", "ua")]), ("b", [("en", "ub")])]
    [ChunkId.str "a"] []

/-- Witness for C1: with chunk `b` registered during the first pass, the
settle operation resolves and both chunks end up settled. -/
theorem loadPending_converges_witness :
    (IntlChunkLoader.loadPending envGrow [[ChunkId.str "b"]] stGrow "en").error = none ∧
    ((stGrow.chunkIdsToLoad.all
      (fun c => decide (c ∈ (IntlChunkLoader.loadPending envGrow [[ChunkId.str "b"]] stGrow "en").state.chunkIdsToLoad))
        = true) ∧
    ((IntlChunkLoader.loadPending envGrow [[ChunkId.str "b"]] stGrow "en").state.chunkIdsToLoad.all
      (fun c => IntlChunkLoader.settledB
        (IntlChunkLoader.loadPending envGrow [[ChunkId.str "b"]] stGrow "en").state c "en") = true)) :=
  ⟨by decide, loadPending_converges envGrow [[ChunkId.str "b"]] stGrow "en" (by decide)⟩

namespace IntlChunkLoader

theorem load_requests_fetch {env : Env} {st : IntlChunkLoader} {c : ChunkId} {loc : String}
    (hs : settledB st c loc = false) :
    (load env st c loc).requests = [(srcFor st c loc).getD ""] := by
  cases hn : env.net ((srcFor st c loc).getD "") with
  | netError => rw [load_netError hs hn]
  | success body =>
      cases hp : env.parse body with
      | none => rw [load_parseFail hs hn hp]
      | some msgs => rw [load_success hs hn hp]

theorem mem_requests_loadAll (env : Env) (loc : String) {c : ChunkId} :
    ∀ (cs : List ChunkId) (st : IntlChunkLoader), c ∈ cs →
      settledB st c loc = false →
      (srcFor st c loc).getD "" ∈ (loadAll env loc st cs).requests := by
  intro cs
  induction cs with
  | nil => intro st hc _; simp at hc
  | cons d rest ih =>
      intro st hc hs
      have hreq : (loadAll env loc st (d :: rest)).requests
          = (load env st d loc).requests
            ++ (loadAll env loc (load env st d loc).state rest).requests := rfl
      rw [hreq]
      by_cases hdc : d = c
      · subst hdc
        apply List.mem_append_left
        rw [load_requests_fetch hs]
        exact List.mem_singleton_self _
      · rcases List.mem_cons.1 hc with hc' | hc'
        · exact absurd hc'.symm hdc
        · apply List.mem_append_right
          have hs' : settledB (load env st d loc).state c loc = false :=
            settledB_load_false hdc hs
          have := ih (load env st d loc).state hc' hs'
          rw [srcFor_load] at this
          exact this

theorem mem_requests_loadPending (env : Env) (loc : String) {url : String}
    (growth : List (List ChunkId)) (st : IntlChunkLoader)
    (h : url ∈ (loadAll env loc st st.chunkIdsToLoad).requests) :
    url ∈ (loadPending env growth st loc).requests := by
  cases growth with
  | nil => rw [loadPending_nil]; exact h
  | cons g rest =>
      cases he : (loadAll env loc st st.chunkIdsToLoad).error with
      | some e => rw [loadPending_cons_err he]; exact h
      | none =>
          by_cases hg : st.chunkIdsToLoad.length <
              (g.foldl setAdd (loadAll env loc st st.chunkIdsToLoad).state.chunkIdsToLoad).length
          · rw [loadPending_cons_ok_grow he hg]
            exact List.mem_append_left _ h
          · rw [loadPending_cons_ok_stay he hg]
            exact h

end IntlChunkLoader

/-- C2: when the manifest maps the chunk and locale to a URL whose response
body fails to parse as JSON, `load` rejects with the ParsePayload error and
leaves the state entirely unchanged — the chunk is not recorded loaded and
the cache is untouched — and a subsequent settle fan-out for the same
locale (on that unchanged state) fetches the same URL again. -/
theorem load_parse_failure (env : Env) (st : IntlChunkLoader) (c : ChunkId)
    (loc url body : String) (growth : List (List ChunkId))
    (hsrc : IntlChunkLoader.srcFor st c loc = some url)
    (hurl : url ≠ "")
    (hnl : IntlChunkLoader.isLoadedB st c loc = false)
    (hnet : env.net url = .success body)
    (hp : env.parse body = none)
    (hmem : c ∈ st.chunkIdsToLoad) :
    IntlChunkLoader.load env st c loc = ⟨st, [url], some .parsePayload⟩ ∧
    url ∈ (IntlChunkLoader.loadPending env growth st loc).requests := by
  have hset : IntlChunkLoader.settledB st c loc = false := by
    unfold IntlChunkLoader.settledB
    rw [hsrc, hnl]
    simp [truthyStr, hurl]
  have hgd : (IntlChunkLoader.srcFor st c loc).getD "" = url := by rw [hsrc]; rfl
  constructor
  · have h := IntlChunkLoader.load_parseFail hset (by rw [hgd]; exact hnet) hp
    rw [hgd] at h
    exact h
  · apply IntlChunkLoader.mem_requests_loadPending
    have h := IntlChunkLoader.mem_requests_loadAll env loc st.chunkIdsToLoad st hmem hset
    rw [hgd] at h
    exact h

/-- Environment for the parse-failure witness: the URL `u` answers with a
body that does not parse. -/
def envBadJson : Env :=
  { net := fun s => if s = "u" then .success "notjson" else .netError
    parse := fun _ => none }

/-- State for the parse-failure witness. -/
def stBadJson : IntlChunkLoader :=
  IntlChunkLoader.create [("1", [("en", "u")])] [ChunkId.str "1"] []

/-- Witness for C2 at a concrete chunk, locale and environment. -/
theorem load_parse_failure_witness :
    IntlChunkLoader.load envBadJson stBadJson (ChunkId.str "1") "en"
        = ⟨stBadJson, ["u"], some .parsePayload⟩ ∧
    "u" ∈ (IntlChunkLoader.loadPending envBadJson [] stBadJson "en").requests :=
  load_parse_failure envBadJson stBadJson (ChunkId.str "1") "en" "u" "notjson" []
    (by decide) (by decide) (by decide) (by decide) (by decide) (by decide)

/-- C3: `load` resolves at once with no request when the manifest has no
resource entry for the chunk and locale or the chunk is already recorded
loaded for the locale; and after any successful `load` of a pair, a second
`load` of the same pair resolves with no request (dedup via the per-locale
loaded set). -/
theorem load_short_circuit (env : Env) (st : IntlChunkLoader) (c : ChunkId)
    (loc : String) :
    ((IntlChunkLoader.srcFor st c loc = none ∨ IntlChunkLoader.isLoadedB st c loc = true) →
      IntlChunkLoader.load env st c loc = ⟨st, [], none⟩) ∧
    ((IntlChunkLoader.load env st c loc).error = none →
      IntlChunkLoader.load env (IntlChunkLoader.load env st c loc).state c loc
        = ⟨(IntlChunkLoader.load env st c loc).state, [], none⟩) := by
  constructor
  · intro h
    apply IntlChunkLoader.load_of_settled
    unfold IntlChunkLoader.settledB
    rw [Bool.or_eq_true]
    rcases h with h | h
    · left
      rw [h]
      rfl
    · exact .inr h
  · intro herr
    cases hg : IntlChunkLoader.settledB st c loc with
    | true =>
        rw [IntlChunkLoader.load_of_settled hg]
        exact IntlChunkLoader.load_of_settled hg
    | false =>
        cases hn : env.net ((IntlChunkLoader.srcFor st c loc).getD "") with
        | netError =>
            rw [IntlChunkLoader.load_netError hg hn] at herr
            simp at herr
        | success body =>
            cases hp : env.parse body with
            | none =>
                rw [IntlChunkLoader.load_parseFail hg hn hp] at herr
                simp at herr
            | some msgs =>
                rw [IntlChunkLoader.load_success hg hn hp]
                apply IntlChunkLoader.load_of_settled
                unfold IntlChunkLoader.settledB
                rw [Bool.or_eq_true]
                exact .inr (IntlChunkLoader.isLoadedB_mark_self _ c loc)

/-- Environment whose fetches all fail, for witnesses that must not reach
the network. -/
def envNone : Env :=
  { net := fun _ => .netError
    parse := fun _ => none }

/-- A state hydrated from a pre-seeded cache: chunk-group `m` recorded
loaded for `en` although the manifest also offers it a resource. -/
def stSeeded : IntlChunkLoader :=
  IntlChunkLoader.create [("m", [("en", "u")])] [ChunkId.str "m"]
    [("m", [("en", [("g", "h")])])]

/-- Witness for C3: the already-loaded pair short-circuits. -/
theorem load_short_circuit_witness :
    IntlChunkLoader.load envNone stSeeded (ChunkId.str "m") "en"
      = ⟨stSeeded, [], none⟩ :=
  (load_short_circuit envNone stSeeded (ChunkId.str "m") "en").1 (.inr (by decide))

/-- C7: `setLocale` records the locale as active exactly on success of the
settle fan-out; on failure the error of `loadPending` propagates unchanged
and the stored locale keeps its previous value. -/
theorem setLocale_spec (env : Env) (growth : List (List ChunkId))
    (st : IntlChunkLoader) (loc : String) :
    ((IntlChunkLoader.setLocale env growth st loc).error = none →
      (IntlChunkLoader.setLocale env growth st loc).state.locale = some loc) ∧
    (∀ e, (IntlChunkLoader.setLocale env growth st loc).error = some e →
      (IntlChunkLoader.setLocale env growth st loc).state.locale = st.locale ∧
      (IntlChunkLoader.loadPending env growth st loc).error = some e) := by
  cases he : (IntlChunkLoader.loadPending env growth st loc).error with
  | none =>
      rw [IntlChunkLoader.setLocale_ok he]
      constructor
      · intro _
        rfl
      · intro e h
        simp at h
  | some e' =>
      rw [IntlChunkLoader.setLocale_err he]
      constructor
      · intro h
        simp at h
      · intro e h
        have h' : some e' = some e := h
        cases h'
        exact ⟨(IntlChunkLoader.loadPending_fields env loc growth st).2, by simp [he]⟩

/-- Loader state with nothing to do, for trivial-success witnesses. -/
def stEmpty : IntlChunkLoader := IntlChunkLoader.create [] [] []

/-- Witness for C7: a successful settle sets the active locale. -/
theorem setLocale_spec_witness :
    (IntlChunkLoader.setLocale envNone [] stEmpty "en").state.locale = some "en" :=
  (setLocale_spec envNone [] stEmpty "en").1 (by decide)

/-- C10: selecting the empty-string locale succeeds and stores it, but the
loader then behaves as if no locale were active: the truthiness test on the
stored locale makes `messages` return `undefined` and `push` register the
chunk without attempting a load. -/
theorem setLocale_empty_string (env : Env) (growth : List (List ChunkId))
    (st : IntlChunkLoader) (c : ChunkId)
    (h : (IntlChunkLoader.setLocale env growth st "").error = none) :
    (IntlChunkLoader.setLocale env growth st "").state.locale = some "" ∧
    ((IntlChunkLoader.setLocale env growth st "").state.messages = none ∧
    IntlChunkLoader.push env (IntlChunkLoader.setLocale env growth st "").state c =
      ⟨{ (IntlChunkLoader.setLocale env growth st "").state with
          chunkIdsToLoad :=
            setAdd (IntlChunkLoader.setLocale env growth st "").state.chunkIdsToLoad c },
       [], none⟩) := by
  cases he : (IntlChunkLoader.loadPending env growth st "").error with
  | some e =>
      rw [IntlChunkLoader.setLocale_err he] at h
      simp at h
  | none =>
      rw [IntlChunkLoader.setLocale_ok he]
      refine ⟨rfl, rfl, ?_⟩
      exact IntlChunkLoader.push_inactive rfl

/-- Witness for C10 at a concrete state and environment. -/
theorem setLocale_empty_string_witness :
    (IntlChunkLoader.setLocale envNone [] stEmpty "").state.locale = some "" ∧
    ((IntlChunkLoader.setLocale envNone [] stEmpty "").state.messages = none ∧
    IntlChunkLoader.push envNone (IntlChunkLoader.setLocale envNone [] stEmpty "").state
        (ChunkId.str "x") =
      ⟨{ (IntlChunkLoader.setLocale envNone [] stEmpty "").state with
          chunkIdsToLoad :=
            setAdd (IntlChunkLoader.setLocale envNone [] stEmpty "").state.chunkIdsToLoad
              (ChunkId.str "x") },
       [], none⟩) :=
  setLocale_empty_string envNone [] stEmpty (ChunkId.str "x") (by decide)

/-- C5: constructing with `preSeededCache = { main: { en: { greeting: "hi" } } }`
and `initialChunkIds = ['main']` and then selecting locale `en` issues zero
network requests (for any manifest and any environment: the pre-seeded pair
is recorded loaded, so settlement short-circuits) and `messages` afterwards
returns `{ greeting: "hi" }`. -/
theorem hydration_scenario (env : Env) (manifest : Manifest) :
    (IntlChunkLoader.setLocale env []
      (IntlChunkLoader.create manifest [ChunkId.str "main"]
        [("main", [("en", [("greeting", "hi")])])]) "en").requests = [] ∧
    (IntlChunkLoader.setLocale env []
      (IntlChunkLoader.create manifest [ChunkId.str "main"]
        [("main", [("en", [("greeting", "hi")])])]) "en").error = none ∧
    (IntlChunkLoader.setLocale env []
      (IntlChunkLoader.create manifest [ChunkId.str "main"]
        [("main", [("en", [("greeting", "hi")])])]) "en").state.messages
      = some [("greeting", "hi")] := by
  have hcreate : IntlChunkLoader.create manifest [ChunkId.str "main"]
      [("main", [("en", [("greeting", "hi")])])] =
      { chunkIdsToLoad := [ChunkId.str "main"]
        manifest := manifest
        cache := [("en", [("greeting", "hi")])]
        locale := none
        loadedChunksPerLocale := [("en", [ChunkId.str "main"])] } := by
    simp +decide [IntlChunkLoader.create, IntlChunkLoader.updateCache,
      IntlChunkLoader.mergeIntoCache, IntlChunkLoader.updateCache1,
      IntlChunkLoader.setChunkIdAsLoaded, alookup, jsAssign, setAdd]
  rw [hcreate]
  have hload : IntlChunkLoader.load env
      { chunkIdsToLoad := [ChunkId.str "main"]
        manifest := manifest
        cache := [("en", [("greeting", "hi")])]
        locale := none
        loadedChunksPerLocale := [("en", [ChunkId.str "main"])] }
      (ChunkId.str "main") "en" =
      ⟨{ chunkIdsToLoad := [ChunkId.str "main"]
         manifest := manifest
         cache := [("en", [("greeting", "hi")])]
         locale := none
         loadedChunksPerLocale := [("en", [ChunkId.str "main"])] }, [], none⟩ := by
    apply IntlChunkLoader.load_of_settled
    unfold IntlChunkLoader.settledB
    rw [Bool.or_eq_true]
    right
    rw [IntlChunkLoader.isLoadedB_eq]
    rfl
  have hlp : IntlChunkLoader.loadPending env []
      { chunkIdsToLoad := [ChunkId.str "main"]
        manifest := manifest
        cache := [("en", [("greeting", "hi")])]
        locale := none
        loadedChunksPerLocale := [("en", [ChunkId.str "main"])] } "en" =
      ⟨{ chunkIdsToLoad := [ChunkId.str "main"]
         manifest := manifest
         cache := [("en", [("greeting", "hi")])]
         locale := none
         loadedChunksPerLocale := [("en", [ChunkId.str "main"])] }, [], none⟩ := by
    rw [IntlChunkLoader.loadPending_nil]
    show IntlChunkLoader.loadAll env "en" _ [ChunkId.str "main"] = _
    rw [IntlChunkLoader.loadAll_cons, hload]
    rfl
  rw [IntlChunkLoader.setLocale_ok (by rw [hlp])]
  rw [hlp]
  exact ⟨rfl, rfl, rfl⟩

/-- Runtime state after a successful initialization: manifest kept, slot
holding the constructed loader. -/
def rtWithLoader (m : Manifest) (st : IntlChunkLoader) : WebpackRuntime :=
  { intlManifest := some m, intlChunkLoader := LoaderSlot.loader st }

theorem initializeLoader_of_loader {rt : WebpackRuntime} {cached : Option Cached}
    {m : Manifest} {st0 : IntlChunkLoader}
    (hm : rt.intlManifest = some m) (hs : rt.intlChunkLoader = .loader st0) :
    initializeLoader rt cached = .error .alreadyInitialized := by
  unfold initializeLoader
  rw [hm, hs]

theorem initializeLoader_none {rt : WebpackRuntime} {cached : Option Cached}
    (hm : rt.intlManifest = none) :
    initializeLoader rt cached = .error .manifestMissing := by
  unfold initializeLoader
  rw [hm]

theorem initializeLoader_absent {rt : WebpackRuntime} {cached : Option Cached}
    {m : Manifest} (hm : rt.intlManifest = some m)
    (hs : rt.intlChunkLoader = .absent) :
    initializeLoader rt cached =
      .ok (rtWithLoader m (IntlChunkLoader.create m [] (cached.getD [])),
           IntlChunkLoader.create m [] (cached.getD [])) := by
  unfold initializeLoader rtWithLoader
  rw [hm, hs]

theorem initializeLoader_pushed {rt : WebpackRuntime} {cached : Option Cached}
    {m : Manifest} {ids : List ChunkId} (hm : rt.intlManifest = some m)
    (hs : rt.intlChunkLoader = .pushedChunkIds ids) :
    initializeLoader rt cached =
      .ok (rtWithLoader m (IntlChunkLoader.create m ids (cached.getD [])),
           IntlChunkLoader.create m ids (cached.getD [])) := by
  unfold initializeLoader rtWithLoader
  rw [hm, hs]

/-- C9: module-level initialization creates the process-wide loader at most
once: it fails synchronously with the manifest-missing error when the
build-generated manifest is absent from the runtime extension point, and a
second initialization after a loader instance exists fails synchronously
with the double-initialization error instead of constructing a new loader. -/
theorem initializeLoader_once (rt : WebpackRuntime) (cached cached' : Option Cached) :
    (rt.intlManifest = none → initializeLoader rt cached = .error .manifestMissing) ∧
    (∀ (rt' : WebpackRuntime) (st : IntlChunkLoader),
      initializeLoader rt cached = .ok (rt', st) →
      initializeLoader rt' cached' = .error .alreadyInitialized) := by
  constructor
  · intro hm
    exact initializeLoader_none hm
  · intro rt' st h
    cases hm : rt.intlManifest with
    | none =>
        rw [initializeLoader_none hm] at h
        exact Except.noConfusion h
    | some m =>
        cases hs : rt.intlChunkLoader with
        | loader st0 =>
            rw [initializeLoader_of_loader hm hs] at h
            exact Except.noConfusion h
        | absent =>
            rw [initializeLoader_absent hm hs] at h
            injection h with h3
            have hrt : rt' = rtWithLoader m (IntlChunkLoader.create m [] (cached.getD [])) :=
              (congrArg Prod.fst h3).symm
            subst hrt
            exact initializeLoader_of_loader rfl rfl
        | pushedChunkIds ids =>
            rw [initializeLoader_pushed hm hs] at h
            injection h with h3
            have hrt : rt' = rtWithLoader m (IntlChunkLoader.create m ids (cached.getD [])) :=
              (congrArg Prod.fst h3).symm
            subst hrt
            exact initializeLoader_of_loader rfl rfl

/-- Runtime state with the manifest present and no loader yet. -/
def rtFresh : WebpackRuntime :=
  { intlManifest := some [], intlChunkLoader := .absent }

/-- Witness for C9: initializing the fresh runtime and then initializing
again fails with the double-initialization error. -/
theorem initializeLoader_once_witness :
    initializeLoader (rtWithLoader [] (IntlChunkLoader.create [] [] [])) none
      = .error .alreadyInitialized :=
  (initializeLoader_once rtFresh none none).2
    (rtWithLoader [] (IntlChunkLoader.create [] [] []))
    (IntlChunkLoader.create [] [] []) (by rfl)

/-- Loader state whose manifest maps chunk `a` to resources for `en` and
`fr`, used to exhibit the per-chunk replacement done by `hot`. -/
def stHot : IntlChunkLoader :=
  { chunkIdsToLoad := []
    manifest := [("a", [("en", "u1"), ("fr", "u2")])]
    cache := []
    locale := none
    loadedChunksPerLocale := [] }

/-- Counterexample to C8: `hot` does not only extend the manifest.  Its
top-level `Object.assign` replaces a patched chunk's whole locale map, so
the `fr` resource of chunk `a`, present before the hot update, is gone
after a patch that mentions chunk `a` with only an `en` entry. -/
theorem hot_shrinks_entry :
    IntlChunkLoader.srcFor stHot (ChunkId.str "a") "fr" = some "u2" ∧
    IntlChunkLoader.srcFor (stHot.hot [("a", [("en", "u3")])] [])
      (ChunkId.str "a") "fr" = none := by
  decide

/-- C8 (amended): `hot` merges the patch into the manifest at chunk level —
chunks absent from the patch keep their entry, chunks present in the patch
get exactly the patch's locale map (so a locale entry under a patched chunk
can be dropped), and no chunk key ever disappears — and it merges the
messages patch into the cache while changing no other bookkeeping. -/
theorem hot_spec (st : IntlChunkLoader) (patch : Manifest) (mp : Messages)
    (ck : String) :
    (alookup patch ck = none →
      alookup (st.hot patch mp).manifest ck = alookup st.manifest ck) ∧
    (∀ e, alookup patch ck = some e →
      alookup (st.hot patch mp).manifest ck = some e) ∧
    ((alookup st.manifest ck).isSome = true →
      (alookup (st.hot patch mp).manifest ck).isSome = true) ∧
    (st.hot patch mp).cache = IntlChunkLoader.mergeIntoCache st.cache mp ∧
    (st.hot patch mp).loadedChunksPerLocale = st.loadedChunksPerLocale ∧
    (st.hot patch mp).chunkIdsToLoad = st.chunkIdsToLoad ∧
    (st.hot patch mp).locale = st.locale := by
  refine ⟨?_, ?_, ?_, rfl, rfl, rfl, rfl⟩
  · intro h
    show alookup (jsAssign st.manifest patch) ck = _
    rw [alookup_jsAssign, h]
  · intro e h
    show alookup (jsAssign st.manifest patch) ck = _
    rw [alookup_jsAssign, h]
  · intro h
    show (alookup (jsAssign st.manifest patch) ck).isSome = true
    rw [alookup_jsAssign]
    cases hp : alookup patch ck with
    | some v => simp
    | none => exact h

/-- Witness for the amended C8 at a concrete state and patch: the unpatched
chunk `a` keeps its entry (and so its key survives). -/
theorem hot_spec_witness :
    alookup (stHot.hot [("b", [("de", "u9")])] []).manifest "a"
      = alookup stHot.manifest "a" ∧
    (alookup (stHot.hot [("b", [("de", "u9")])] []).manifest "a").isSome = true :=
  ⟨(hot_spec stHot [("b", [("de", "u9")])] [] "a").1 (by decide),
   (hot_spec stHot [("b", [("de", "u9")])] [] "a").2.2.1 (by decide)⟩

/-! The loaded-implies-merged invariant (C4). -/

namespace IntlChunkLoader

/-- Message-id keys of the payload the environment would deliver for a
chunk and locale through the manifest: empty when the manifest offers no
(truthy) resource or the fetch or parse would fail. -/
def fetchKeys (env : Env) (manifest : Manifest) (c : ChunkId) (loc : String) :
    List String :=
  match alookup manifest c.key with
  | some m =>
    match alookup m loc with
    | some url =>
      if url = "" then []
      else
        match env.net url with
        | .netError => []
        | .success body =>
          match env.parse body with
          | some lm => lm.map Prod.fst
          | none => []
    | none => []
  | none => []

/-- Message-id keys of the payload the claim associates to a loaded chunk
and locale: the pre-seeded payload when the hydration cache supplied one
for that chunk-group name and locale, else the manifest fetch payload. -/
def claimedKeys (env : Env) (pre : Cached) (manifest : Manifest) (c : ChunkId)
    (loc : String) : List String :=
  match c with
  | ChunkId.str s =>
    match alookup pre s with
    | some msgs =>
      match alookup msgs loc with
      | some lm => lm.map Prod.fst
      | none => fetchKeys env manifest c loc
    | none => fetchKeys env manifest c loc
  | ChunkId.num _ => fetchKeys env manifest c loc

/-- Every listed key has an entry in the bucket. -/
def keysSubB (ks : List String) (bucket : LocaleMessages) : Bool :=
  ks.all (fun k => (alookup bucket k).isSome)

/-- The invariant at one loaded pair: the keys of its payload are present
in the locale's cache bucket. -/
def invAt (env : Env) (pre : Cached) (manifest : Manifest) (cache : Messages)
    (loc : String) (c : ChunkId) : Bool :=
  keysSubB (claimedKeys env pre manifest c loc) (bucketOf cache loc)

/-- Every pair the pre-seeded cache supplied is recorded loaded. -/
def hydrated (pre : Cached) (st : IntlChunkLoader) : Bool :=
  pre.all (fun p => p.2.all (fun q => isLoadedB st (ChunkId.str p.1) q.1))

/-- The loader invariant: pre-seeded pairs are recorded loaded, and every
pair recorded in the per-locale loaded sets has its payload's keys merged
into the locale's cache bucket. -/
def InvB (env : Env) (pre : Cached) (st : IntlChunkLoader) : Bool :=
  hydrated pre st &&
    st.loadedChunksPerLocale.all
      (fun p => p.2.all (fun c => invAt env pre st.manifest st.cache p.1 c))

theorem InvB_iff {env : Env} {pre : Cached} {st : IntlChunkLoader} :
    InvB env pre st = true ↔
      (∀ p ∈ pre, ∀ q ∈ p.2, isLoadedB st (ChunkId.str p.1) q.1 = true) ∧
      (∀ p ∈ st.loadedChunksPerLocale, ∀ c ∈ p.2,
        invAt env pre st.manifest st.cache p.1 c = true) := by
  unfold InvB hydrated
  rw [Bool.and_eq_true]
  simp [List.all_eq_true]

theorem bucket_isSome_updateCache1 {cache : Messages} {ℓ : String}
    {lm : LocaleMessages} {loc k : String}
    (h : (alookup (bucketOf cache loc) k).isSome = true) :
    (alookup (bucketOf (updateCache1 cache ℓ lm) loc) k).isSome = true := by
  rw [bucketOf_updateCache1]
  by_cases hl : loc = ℓ
  · rw [if_pos hl, alookup_jsAssign]
    subst hl
    cases hlm : alookup lm k with
    | some v => simp
    | none => exact h
  · rw [if_neg hl]
    exact h

theorem bucket_isSome_merge {loc k : String} :
    ∀ (msgs : Messages), ∀ {cache : Messages},
      (alookup (bucketOf cache loc) k).isSome = true →
      (alookup (bucketOf (mergeIntoCache cache msgs) loc) k).isSome = true := by
  intro msgs
  induction msgs with
  | nil => intro cache h; exact h
  | cons q rest ih =>
      intro cache h
      rw [mergeIntoCache_cons]
      exact ih (bucket_isSome_updateCache1 h)

theorem bucket_updateCache1_self {cache : Messages} {ℓ : String}
    {lm : LocaleMessages} {k : String} (h : (alookup lm k).isSome = true) :
    (alookup (bucketOf (updateCache1 cache ℓ lm) ℓ) k).isSome = true := by
  rw [bucketOf_updateCache1, if_pos rfl, alookup_jsAssign]
  cases hlm : alookup lm k with
  | some v => simp
  | none => rw [hlm] at h; simp at h

theorem bucket_merge_self {ℓ k : String} {lm : LocaleMessages} :
    ∀ (msgs : Messages) {cache : Messages}, (ℓ, lm) ∈ msgs →
      (alookup lm k).isSome = true →
      (alookup (bucketOf (mergeIntoCache cache msgs) ℓ) k).isSome = true := by
  intro msgs
  induction msgs with
  | nil => intro cache hmem _; simp at hmem
  | cons q rest ih =>
      intro cache hmem hk
      rw [mergeIntoCache_cons]
      rcases List.mem_cons.1 hmem with hmem | hmem
      · rw [← hmem]
        exact bucket_isSome_merge rest (bucket_updateCache1_self hk)
      · exact ih hmem hk

theorem keysSubB_mono {ks : List String} {b b' : LocaleMessages}
    (hmono : ∀ k, (alookup b k).isSome = true → (alookup b' k).isSome = true)
    (h : keysSubB ks b = true) : keysSubB ks b' = true := by
  rw [keysSubB, List.all_eq_true] at h ⊢
  intro k hk
  exact hmono k (h k hk)

theorem invAt_merge_mono {env : Env} {pre : Cached} {manifest : Manifest}
    {cache : Messages} {loc : String} {c : ChunkId} (msgs : Messages)
    (h : invAt env pre manifest cache loc c = true) :
    invAt env pre manifest (mergeIntoCache cache msgs) loc c = true := by
  unfold invAt at h ⊢
  exact keysSubB_mono (fun k => bucket_isSome_merge msgs) h

theorem hydrated_iff {pre : Cached} {st : IntlChunkLoader} :
    hydrated pre st = true ↔
      ∀ p ∈ pre, ∀ q ∈ p.2, isLoadedB st (ChunkId.str p.1) q.1 = true := by
  unfold hydrated
  simp [List.all_eq_true]

theorem mem_loaded_mark {st : IntlChunkLoader} {c : ChunkId} {loc : String}
    {q : String × List ChunkId} {c' : ChunkId}
    (hq : q ∈ (st.setChunkIdAsLoaded c loc).loadedChunksPerLocale)
    (hc : c' ∈ q.2) :
    (∃ q₀ ∈ st.loadedChunksPerLocale, q₀.1 = q.1 ∧ c' ∈ q₀.2) ∨
      (q.1 = loc ∧ c' = c) := by
  unfold setChunkIdAsLoaded at hq
  cases h' : alookup st.loadedChunksPerLocale loc with
  | some s =>
      rw [h'] at hq
      have hq2 : q ∈ st.loadedChunksPerLocale.map
          (fun q => if q.1 = loc then (q.1, setAdd q.2 c) else q) := hq
      rcases List.mem_map.1 hq2 with ⟨q₀, hq₀, hqe⟩
      by_cases h₀ : q₀.1 = loc
      · rw [if_pos h₀] at hqe
        subst hqe
        rcases mem_setAdd_elim hc with hm | hm
        · exact .inl ⟨q₀, hq₀, rfl, hm⟩
        · exact .inr ⟨h₀, hm⟩
      · rw [if_neg h₀] at hqe
        subst hqe
        exact .inl ⟨q₀, hq₀, rfl, hc⟩
  | none =>
      rw [h'] at hq
      have hq2 : q ∈ st.loadedChunksPerLocale ++ [(loc, [c])] := hq
      rcases List.mem_append.1 hq2 with hq3 | hq3
      · exact .inl ⟨q, hq3, rfl, hc⟩
      · have hq4 : q = (loc, [c]) := by simpa using hq3
        subst hq4
        exact .inr ⟨rfl, by simpa using hc⟩

theorem isLoadedB_load_mono {env : Env} {st : IntlChunkLoader} {d : ChunkId}
    {ℓ : String} {c' : ChunkId} {loc' : String}
    (h : isLoadedB st c' loc' = true) :
    isLoadedB (load env st d ℓ).state c' loc' = true := by
  cases hg : settledB st d ℓ with
  | true => rw [load_of_settled hg]; exact h
  | false =>
      cases hn : env.net ((srcFor st d ℓ).getD "") with
      | netError => rw [load_netError hg hn]; exact h
      | success body =>
          cases hp : env.parse body with
          | none => rw [load_parseFail hg hn hp]; exact h
          | some msgs =>
              rw [load_success hg hn hp]
              exact isLoadedB_mark_mono d ℓ h

theorem InvB_updateCache {env : Env} {pre : Cached} {st : IntlChunkLoader}
    (msgs : Messages) (h : InvB env pre st = true) :
    InvB env pre (st.updateCache msgs) = true := by
  rw [InvB_iff] at h ⊢
  obtain ⟨h1, h2⟩ := h
  constructor
  · intro p hp q hq
    exact h1 p hp q hq
  · intro p hp c hc
    have hp' : p ∈ st.loadedChunksPerLocale := hp
    exact invAt_merge_mono msgs (h2 p hp' c hc)

theorem InvB_mark {env : Env} {pre : Cached} {st : IntlChunkLoader} {c : ChunkId}
    {loc : String} (h : InvB env pre st = true)
    (hnew : invAt env pre st.manifest st.cache loc c = true) :
    InvB env pre (st.setChunkIdAsLoaded c loc) = true := by
  rw [InvB_iff] at h ⊢
  obtain ⟨h1, h2⟩ := h
  constructor
  · intro p hp q hq
    exact isLoadedB_mark_mono c loc (h1 p hp q hq)
  · intro p hp c' hc'
    rcases mem_loaded_mark hp hc' with ⟨q₀, hq₀, hkey, hc₀⟩ | ⟨hkey, hceq⟩
    · have hh := h2 q₀ hq₀ c' hc₀
      rw [hkey] at hh
      exact hh
    · rw [hkey, hceq]
      exact hnew

theorem claimedKeys_num (env : Env) (pre : Cached) (manifest : Manifest) (n : Int)
    (loc : String) :
    claimedKeys env pre manifest (ChunkId.num n) loc
      = fetchKeys env manifest (ChunkId.num n) loc := rfl

theorem claimedKeys_str_eq (env : Env) (pre : Cached) (manifest : Manifest)
    (s loc : String) :
    claimedKeys env pre manifest (ChunkId.str s) loc =
      match alookup pre s with
      | some msgs =>
        match alookup msgs loc with
        | some lm => lm.map Prod.fst
        | none => fetchKeys env manifest (ChunkId.str s) loc
      | none => fetchKeys env manifest (ChunkId.str s) loc := rfl

theorem fetchKeys_none {env : Env} {manifest : Manifest} {c : ChunkId} {loc : String}
    (hm : alookup manifest c.key = none) :
    fetchKeys env manifest c loc = [] := by
  unfold fetchKeys
  rw [hm]

theorem fetchKeys_some {env : Env} {manifest : Manifest} {c : ChunkId} {loc : String}
    {mm : List (String × String)} (hm : alookup manifest c.key = some mm) :
    fetchKeys env manifest c loc =
      match alookup mm loc with
      | some url =>
        if url = "" then []
        else
          match env.net url with
          | .netError => []
          | .success body =>
            match env.parse body with
            | some lm => lm.map Prod.fst
            | none => []
      | none => [] := by
  unfold fetchKeys
  rw [hm]

theorem InvB_load {env : Env} {pre : Cached} {st : IntlChunkLoader} {c : ChunkId}
    {loc : String} (h : InvB env pre st = true) :
    InvB env pre (load env st c loc).state = true := by
  cases hg : settledB st c loc with
  | true => rw [load_of_settled hg]; exact h
  | false =>
      cases hn : env.net ((srcFor st c loc).getD "") with
      | netError => rw [load_netError hg hn]; exact h
      | success body =>
          cases hp : env.parse body with
          | none => rw [load_parseFail hg hn hp]; exact h
          | some msgs =>
              rw [load_success hg hn hp]
              apply InvB_mark (InvB_updateCache [(loc, msgs)] h)
              show invAt env pre st.manifest (mergeIntoCache st.cache [(loc, msgs)]) loc c
                = true
              have hgg := hg
              unfold settledB at hgg
              rw [Bool.or_eq_false_iff] at hgg
              obtain ⟨ht, hl⟩ := hgg
              have ht' : truthyStr (srcFor st c loc) = true := by simpa using ht
              cases hsv : srcFor st c loc with
              | none => rw [hsv] at ht'; simp [truthyStr] at ht'
              | some url =>
                  rw [hsv] at ht'
                  have hne : ¬ url = "" := by
                    intro he
                    rw [he] at ht'
                    simp [truthyStr] at ht'
                  have hn' : env.net url = .success body := by
                    rw [hsv] at hn
                    simpa using hn
                  have hck : claimedKeys env pre st.manifest c loc
                      = fetchKeys env st.manifest c loc := by
                    cases c with
                    | num n => exact claimedKeys_num env pre st.manifest n loc
                    | str s =>
                        rw [claimedKeys_str_eq]
                        cases hpre : alookup pre s with
                        | none => rfl
                        | some msgsPre =>
                            show (match alookup msgsPre loc with
                              | some lm => lm.map Prod.fst
                              | none => fetchKeys env st.manifest (ChunkId.str s) loc)
                              = fetchKeys env st.manifest (ChunkId.str s) loc
                            cases hploc : alookup msgsPre loc with
                            | none => rfl
                            | some lm =>
                                exfalso
                                have hh := (InvB_iff.1 h).1 (s, msgsPre)
                                  (mem_of_alookup_eq_some hpre) (loc, lm)
                                  (mem_of_alookup_eq_some hploc)
                                rw [hl] at hh
                                exact Bool.false_ne_true hh
                  have hfk : fetchKeys env st.manifest c loc = msgs.map Prod.fst := by
                    have hsv1 := hsv
                    unfold srcFor at hsv1
                    cases hm : alookup st.manifest c.key with
                    | none => rw [hm] at hsv1; exact Option.noConfusion hsv1
                    | some mm =>
                        rw [hm] at hsv1
                        have hsv2 : alookup mm loc = some url := hsv1
                        rw [fetchKeys_some hm, hsv2]
                        simp [hne, hn', hp]
                  unfold invAt
                  rw [hck, hfk]
                  rw [keysSubB, List.all_eq_true]
                  intro k hk
                  rcases List.mem_map.1 hk with ⟨qq, hq, hqe⟩
                  subst hqe
                  have hks : (alookup msgs qq.1).isSome = true := alookup_isSome_of_mem hq
                  exact bucket_merge_self [(loc, msgs)] (by simp) hks

theorem InvB_loadAll {env : Env} {pre : Cached} {loc : String} :
    ∀ (cs : List ChunkId) (st : IntlChunkLoader), InvB env pre st = true →
      InvB env pre (loadAll env loc st cs).state = true := by
  intro cs
  induction cs with
  | nil => intro st h; exact h
  | cons c rest ih =>
      intro st h
      have hst : (loadAll env loc st (c :: rest)).state
          = (loadAll env loc (load env st c loc).state rest).state := rfl
      rw [hst]
      exact ih _ (InvB_load h)

theorem InvB_loadPending {env : Env} {pre : Cached} {loc : String} :
    ∀ (growth : List (List ChunkId)) (st : IntlChunkLoader), InvB env pre st = true →
      InvB env pre (loadPending env growth st loc).state = true := by
  intro growth
  induction growth with
  | nil =>
      intro st h
      rw [loadPending_nil]
      exact InvB_loadAll _ _ h
  | cons g rest ih =>
      intro st h
      cases he : (loadAll env loc st st.chunkIdsToLoad).error with
      | some e =>
          rw [loadPending_cons_err he]
          exact InvB_loadAll _ _ h
      | none =>
          by_cases hg : st.chunkIdsToLoad.length <
              (g.foldl setAdd (loadAll env loc st st.chunkIdsToLoad).state.chunkIdsToLoad).length
          · rw [loadPending_cons_ok_grow he hg]
            apply ih
            exact InvB_loadAll _ _ h
          · rw [loadPending_cons_ok_stay he hg]
            exact InvB_loadAll _ _ h

theorem InvB_setLocale {env : Env} {pre : Cached} {growth : List (List ChunkId)}
    {st : IntlChunkLoader} {locale : String} (h : InvB env pre st = true) :
    InvB env pre (setLocale env growth st locale).state = true := by
  cases he : (loadPending env growth st locale).error with
  | none =>
      rw [setLocale_ok he]
      exact InvB_loadPending growth st h
  | some e =>
      rw [setLocale_err he]
      exact InvB_loadPending growth st h

theorem InvB_push {env : Env} {pre : Cached} {st : IntlChunkLoader} {c : ChunkId}
    (h : InvB env pre st = true) :
    InvB env pre (push env st c).state = true := by
  cases ht : truthyStr st.locale with
  | false =>
      rw [push_inactive ht]
      exact h
  | true =>
      rw [push_active ht]
      exact InvB_load (by exact h)

theorem InvB_hot {env : Env} {pre : Cached} {st : IntlChunkLoader} {patch : Manifest}
    {mp : Messages} (h : InvB env pre st = true)
    (hpatch : ∀ q ∈ st.loadedChunksPerLocale, ∀ d ∈ q.2, alookup patch d.key = none) :
    InvB env pre (st.hot patch mp) = true := by
  rw [InvB_iff] at h ⊢
  obtain ⟨h1, h2⟩ := h
  constructor
  · intro p hp q hq
    exact h1 p hp q hq
  · intro p hp c hc
    have hp' : p ∈ st.loadedChunksPerLocale := hp
    have h0 := h2 p hp' c hc
    have hpc : alookup patch c.key = none := hpatch p hp' c hc
    have hjs : alookup (jsAssign st.manifest patch) c.key = alookup st.manifest c.key := by
      rw [alookup_jsAssign, hpc]
    have hfk : fetchKeys env (jsAssign st.manifest patch) c p.1
        = fetchKeys env st.manifest c p.1 := by
      cases hm : alookup st.manifest c.key with
      | none =>
          rw [fetchKeys_none (hjs.trans hm), fetchKeys_none hm]
      | some mm =>
          rw [fetchKeys_some (hjs.trans hm), fetchKeys_some hm]
    have hck : claimedKeys env pre (jsAssign st.manifest patch) c p.1
        = claimedKeys env pre st.manifest c p.1 := by
      cases c with
      | num n => rw [claimedKeys_num, claimedKeys_num]; exact hfk
      | str s =>
          rw [claimedKeys_str_eq, claimedKeys_str_eq]
          cases hpre : alookup pre s with
          | none => exact hfk
          | some msgsPre =>
              show (match alookup msgsPre p.1 with
                | some lm => lm.map Prod.fst
                | none => fetchKeys env (jsAssign st.manifest patch) (ChunkId.str s) p.1)
                = (match alookup msgsPre p.1 with
                | some lm => lm.map Prod.fst
                | none => fetchKeys env st.manifest (ChunkId.str s) p.1)
              cases hploc : alookup msgsPre p.1 with
              | some lm => rfl
              | none => exact hfk
    show invAt env pre (jsAssign st.manifest patch) (mergeIntoCache st.cache mp) p.1 c
      = true
    unfold invAt at h0 ⊢
    rw [hck]
    exact keysSubB_mono (fun k => bucket_isSome_merge mp) h0

/-- One step of the constructor's hydration fold: merge a chunk-group's
messages, then record each of its locales loaded for the group name. -/
def createStep (st : IntlChunkLoader) (p : String × Messages) : IntlChunkLoader :=
  p.2.foldl (fun s q => s.setChunkIdAsLoaded (ChunkId.str p.1) q.1) (st.updateCache p.2)

theorem create_eq (manifest : Manifest) (chunkIds : List ChunkId) (cached : Cached) :
    create manifest chunkIds cached = cached.foldl createStep
      { chunkIdsToLoad := chunkIds.foldl setAdd []
        manifest := manifest
        cache := []
        locale := none
        loadedChunksPerLocale := [] } := rfl

theorem isLoadedB_markfold_mono {name : String} :
    ∀ (qs : List (String × LocaleMessages)) (st : IntlChunkLoader) {c : ChunkId}
      {loc : String}, isLoadedB st c loc = true →
      isLoadedB
        (qs.foldl (fun s q => s.setChunkIdAsLoaded (ChunkId.str name) q.1) st) c loc
        = true := by
  intro qs
  induction qs with
  | nil => intro st _ _ h; exact h
  | cons q rest ih =>
      intro st c loc h
      exact ih _ (isLoadedB_mark_mono (ChunkId.str name) q.1 h)

theorem isLoadedB_markfold_self {name : String} :
    ∀ (qs : List (String × LocaleMessages)) (st : IntlChunkLoader)
      {q' : String × LocaleMessages}, q' ∈ qs →
      isLoadedB
        (qs.foldl (fun s q => s.setChunkIdAsLoaded (ChunkId.str name) q.1) st)
        (ChunkId.str name) q'.1 = true := by
  intro qs
  induction qs with
  | nil => intro st q' h; simp at h
  | cons q rest ih =>
      intro st q' h
      rcases List.mem_cons.1 h with h | h
      · subst h
        exact isLoadedB_markfold_mono rest _ (isLoadedB_mark_self st _ _)
      · exact ih _ h

theorem isLoadedB_createStep_mono {st : IntlChunkLoader} {p : String × Messages}
    {c : ChunkId} {loc : String} (h : isLoadedB st c loc = true) :
    isLoadedB (createStep st p) c loc = true :=
  isLoadedB_markfold_mono p.2 _ (by exact h)

theorem isLoadedB_createStep_self {st : IntlChunkLoader} {p : String × Messages}
    {q : String × LocaleMessages} (hq : q ∈ p.2) :
    isLoadedB (createStep st p) (ChunkId.str p.1) q.1 = true :=
  isLoadedB_markfold_self p.2 _ hq

theorem hydrated_create_aux {pre₀ : Cached} :
    ∀ (rest : Cached) (st : IntlChunkLoader),
      (∀ p ∈ pre₀, (∀ q ∈ p.2, isLoadedB st (ChunkId.str p.1) q.1 = true) ∨ p ∈ rest) →
      ∀ p ∈ pre₀, ∀ q ∈ p.2,
        isLoadedB (rest.foldl createStep st) (ChunkId.str p.1) q.1 = true := by
  intro rest
  induction rest with
  | nil =>
      intro st h p hp q hq
      rcases h p hp with h' | h'
      · exact h' q hq
      · simp at h'
  | cons r rest' ih =>
      intro st h p hp q hq
      have hfold : (r :: rest').foldl createStep st
          = rest'.foldl createStep (createStep st r) := rfl
      rw [hfold]
      refine ih (createStep st r) ?_ p hp q hq
      intro p' hp'
      rcases h p' hp' with h' | h'
      · exact .inl (fun q' hq' => isLoadedB_createStep_mono (h' q' hq'))
      · rcases List.mem_cons.1 h' with h'' | h''
        · subst h''
          exact .inl (fun q' hq' => isLoadedB_createStep_self hq')
        · exact .inr h''

/-- The per-pair component of the invariant, as a proposition over a state. -/
def Comp1 (env : Env) (pre : Cached) (st : IntlChunkLoader) : Prop :=
  ∀ p ∈ st.loadedChunksPerLocale, ∀ c ∈ p.2,
    invAt env pre st.manifest st.cache p.1 c = true

theorem comp1_updateCache {env : Env} {pre : Cached} {st : IntlChunkLoader}
    (msgs : Messages) (h : Comp1 env pre st) : Comp1 env pre (st.updateCache msgs) := by
  intro p hp c hc
  have hp' : p ∈ st.loadedChunksPerLocale := hp
  exact invAt_merge_mono msgs (h p hp' c hc)

theorem comp1_mark {env : Env} {pre : Cached} {st : IntlChunkLoader} {c : ChunkId}
    {loc : String} (h : Comp1 env pre st)
    (hnew : invAt env pre st.manifest st.cache loc c = true) :
    Comp1 env pre (st.setChunkIdAsLoaded c loc) := by
  intro p hp c' hc'
  rcases mem_loaded_mark hp hc' with ⟨q₀, hq₀, hkey, hc₀⟩ | ⟨hkey, hceq⟩
  · have hh := h q₀ hq₀ c' hc₀
    rw [hkey] at hh
    exact hh
  · rw [hkey, hceq]
    exact hnew

theorem comp1_markfold {env : Env} {pre : Cached} {name : String} :
    ∀ (qs : List (String × LocaleMessages)) (st : IntlChunkLoader),
      Comp1 env pre st →
      (∀ q ∈ qs, invAt env pre st.manifest st.cache q.1 (ChunkId.str name) = true) →
      Comp1 env pre
        (qs.foldl (fun s q => s.setChunkIdAsLoaded (ChunkId.str name) q.1) st) := by
  intro qs
  induction qs with
  | nil => intro st h _; exact h
  | cons q rest ih =>
      intro st h hinv
      refine ih _ (comp1_mark h (hinv q (List.mem_cons_self q rest))) ?_
      intro q' hq'
      exact hinv q' (List.mem_cons_of_mem q hq')

theorem comp1_createStep {env : Env} {pre : Cached} {st : IntlChunkLoader}
    {p : String × Messages} (h : Comp1 env pre st)
    (hlook : alookup pre p.1 = some p.2) : Comp1 env pre (createStep st p) := by
  refine comp1_markfold p.2 (st.updateCache p.2) (comp1_updateCache p.2 h) ?_
  intro q hq
  show invAt env pre st.manifest (mergeIntoCache st.cache p.2) q.1 (ChunkId.str p.1)
    = true
  unfold invAt
  rw [claimedKeys_str_eq, hlook]
  show keysSubB (match alookup p.2 q.1 with
    | some lm => lm.map Prod.fst
    | none => fetchKeys env st.manifest (ChunkId.str p.1) q.1)
    (bucketOf (mergeIntoCache st.cache p.2) q.1) = true
  cases hlm : alookup p.2 q.1 with
  | none =>
      have := alookup_isSome_of_mem hq
      rw [hlm] at this
      simp at this
  | some lm₁ =>
      rw [keysSubB, List.all_eq_true]
      intro k hk
      rcases List.mem_map.1 hk with ⟨e, he, hke⟩
      subst hke
      exact bucket_merge_self p.2 (mem_of_alookup_eq_some hlm)
        (alookup_isSome_of_mem he)

theorem comp1_create_aux {env : Env} {pre : Cached} :
    ∀ (rest : Cached) (st : IntlChunkLoader), Comp1 env pre st →
      (∀ p ∈ rest, alookup pre p.1 = some p.2) →
      Comp1 env pre (rest.foldl createStep st) := by
  intro rest
  induction rest with
  | nil => intro st h _; exact h
  | cons r rest' ih =>
      intro st h hlook
      have hfold : (r :: rest').foldl createStep st
          = rest'.foldl createStep (createStep st r) := rfl
      rw [hfold]
      exact ih _ (comp1_createStep h (hlook r (List.mem_cons_self r rest')))
        (fun p hp => hlook p (List.mem_cons_of_mem r hp))

theorem InvB_create (env : Env) (manifest : Manifest) (ids : List ChunkId)
    (pre : Cached) (hnd : (pre.map Prod.fst).Nodup) :
    InvB env pre (create manifest ids pre) = true := by
  rw [InvB_iff, create_eq]
  constructor
  · intro p hp q hq
    exact hydrated_create_aux pre _ (fun p' hp' => .inr hp') p hp q hq
  · exact comp1_create_aux pre _ (fun p hp c hc => by simp at hp)
      (fun p hp => alookup_of_mem_nodup hnd hp)

end IntlChunkLoader

/-- C4 (amended): construction from a duplicate-free pre-seeded cache
establishes the invariant — every (chunk, locale) pair recorded in the
per-locale loaded sets has the keys of its payload (the pre-seeded payload
when the hydration cache supplied one, else the manifest fetch payload)
merged into the locale's cache bucket, and every pre-seeded pair is
recorded loaded — and `load`, `updateCache`, `push`, `loadPending` and
`setLocale` preserve it; `hot` preserves it provided the manifest patch
holds no entry for the key of any already-loaded chunk (an unrestricted
patch can redirect a loaded chunk's resource and break it). -/
theorem loader_invariant (env : Env) (manifest : Manifest) (ids : List ChunkId)
    (pre : Cached) (st : IntlChunkLoader) (msgs : Messages) (c : ChunkId)
    (loc : String) (growth : List (List ChunkId)) (patch : Manifest) (mp : Messages)
    (hnd : (pre.map Prod.fst).Nodup)
    (hinv : IntlChunkLoader.InvB env pre st = true)
    (hpatch : ∀ q ∈ st.loadedChunksPerLocale, ∀ d ∈ q.2, alookup patch d.key = none) :
    IntlChunkLoader.InvB env pre (IntlChunkLoader.create manifest ids pre) = true ∧
    IntlChunkLoader.InvB env pre (IntlChunkLoader.load env st c loc).state = true ∧
    IntlChunkLoader.InvB env pre (st.updateCache msgs) = true ∧
    IntlChunkLoader.InvB env pre (IntlChunkLoader.push env st c).state = true ∧
    IntlChunkLoader.InvB env pre
      (IntlChunkLoader.loadPending env growth st loc).state = true ∧
    IntlChunkLoader.InvB env pre
      (IntlChunkLoader.setLocale env growth st loc).state = true ∧
    IntlChunkLoader.InvB env pre (st.hot patch mp) = true :=
  ⟨IntlChunkLoader.InvB_create env manifest ids pre hnd,
   IntlChunkLoader.InvB_load hinv,
   IntlChunkLoader.InvB_updateCache msgs hinv,
   IntlChunkLoader.InvB_push hinv,
   IntlChunkLoader.InvB_loadPending growth st hinv,
   IntlChunkLoader.InvB_setLocale hinv,
   IntlChunkLoader.InvB_hot hinv hpatch⟩

/-- Environment for the invariant counterexample: two URLs with distinct
single-key payloads. -/
def envInv : Env :=
  { net := fun u =>
      if u = "u1" then .success "b1"
      else if u = "u2" then .success "b2"
      else .netError
    parse := fun b =>
      if b = "b1" then some [("k1", "v1")]
      else if b = "b2" then some [("k2", "v2")]
      else none }

/-- State satisfying the invariant: chunk `c` fetched for `en` from `u1`,
its payload `{k1}` merged. -/
def stInv : IntlChunkLoader :=
  { chunkIdsToLoad := []
    manifest := [("c", [("en", "u1")])]
    cache := [("en", [("k1", "v1")])]
    locale := none
    loadedChunksPerLocale := [("en", [ChunkId.str "c"])] }

/-- Counterexample to C4 as stated: `hot` is an operation of the loader,
yet it does not preserve the invariant — repointing the already-loaded
chunk `c` to `u2`, whose payload has key `k2`, leaves `c` recorded loaded
while the cache bucket for `en` lacks `k2`. -/
theorem inv_not_preserved_by_hot :
    IntlChunkLoader.InvB envInv [] stInv = true ∧
    IntlChunkLoader.InvB envInv [] (stInv.hot [("c", [("en", "u2")])] []) = false := by
  decide

/-- Witness for the amended C4 at concrete inputs. -/
theorem loader_invariant_witness :
    IntlChunkLoader.InvB envInv [] (IntlChunkLoader.create [] [] []) = true ∧
    IntlChunkLoader.InvB envInv []
      (IntlChunkLoader.load envInv stInv (ChunkId.str "c") "en").state = true ∧
    IntlChunkLoader.InvB envInv [] (stInv.updateCache []) = true ∧
    IntlChunkLoader.InvB envInv []
      (IntlChunkLoader.push envInv stInv (ChunkId.str "c")).state = true ∧
    IntlChunkLoader.InvB envInv []
      (IntlChunkLoader.loadPending envInv [] stInv "en").state = true ∧
    IntlChunkLoader.InvB envInv []
      (IntlChunkLoader.setLocale envInv [] stInv "en").state = true ∧
    IntlChunkLoader.InvB envInv [] (stInv.hot [] []) = true :=
  loader_invariant envInv [] [] [] stInv [] (ChunkId.str "c") "en" [] [] []
    (by decide) (by decide) (by decide)
